import Mathlib

/-!
Shallow embedding of the stylesheet pipeline of `packages/vite/src/node/plugins/css.ts`:
the compile fast path, the preprocessor orchestration of `compileCSS`, the
`vite:css-post` chunk aggregation and pruning stages, the `url()` rewriter, the
`@import` hoist plugin, the preprocessor loader and the dev transform cache.
External collaborators (the postcss toolchain, esbuild, the node module loader,
the filesystem and glob expansion) are modelled as opaque parameters in
environment records, exactly at the interface the source invokes them.
-/

namespace ViteCss

/-- JS word character, the regex class backslash-w: ASCII letters, digits, underscore. -/
def isWordChar (c : Char) : Bool := c.isAlphanum || c == '_'

/-- JS whitespace characters matched by the regex class backslash-s
(restricted to the ASCII whitespace relevant to CSS sources). -/
def isJsSpace (c : Char) : Bool :=
  c == ' ' || c == '\t' || c == '\n' || c == '\r' || c == '\x0b' || c == '\x0c'

/-- Infix test on character lists: does `pat` occur contiguously in `l`? -/
def listInfix (pat : List Char) : List Char → Bool
  | [] => pat.isEmpty
  | c :: rest => pat.isPrefixOf (c :: rest) || listInfix pat rest

/-- Substring test, modelling `String.prototype.includes` (used for the
`code.includes` and substring-only regexes of the source). -/
def strContains (s pat : String) : Bool := listInfix pat.data s.data

/-- Greedy run split: longest prefix satisfying the predicate, and the rest. -/
def splitRun (p : Char → Bool) (l : List Char) : List Char × List Char :=
  (l.takeWhile p, l.dropWhile p)

/-- The stylesheet dialects of the extension group of `cssLangRE`. -/
inductive CssLang
  | css | less | sass | scss | styl | stylus | pcss | postcss
deriving DecidableEq, Repr

/-- The alternatives of the `cssLangRE` extension group, in regex alternation order. -/
def cssLangAlts : List (String × CssLang) :=
  [("css", CssLang.css), ("less", CssLang.less), ("sass", CssLang.sass),
   ("scss", CssLang.scss), ("styl", CssLang.styl), ("stylus", CssLang.stylus),
   ("pcss", CssLang.pcss), ("postcss", CssLang.postcss)]

/-- Match the `(css|less|sass|scss|styl|stylus|pcss|postcss)($|\?)` tail of
`cssLangRE` right after a dot, honouring regex alternation order with
backtracking (so `.stylus` falls through `styl` to `stylus`). -/
def langAtDot (l : List Char) : Option CssLang :=
  cssLangAlts.findSome? (fun alt =>
    let e := alt.1.data
    if e.isPrefixOf l then
      match l.drop e.length with
      | [] => some alt.2
      | c :: _ => if c == '?' then some alt.2 else none
    else none)

/-- Leftmost match of `cssLangRE` over the id, returning the extension group. -/
def langScan : List Char → Option CssLang
  | [] => none
  | c :: rest =>
    if c == '.' then
      match langAtDot rest with
      | some lg => some lg
      | none => langScan rest
    else langScan rest

/-- `id.match(cssLangRE)?.[1]`: the dialect of a request id, if any. -/
def langOf (id : String) : Option CssLang := langScan id.data

/-- `isCSSRequest`: `cssLangRE.test(request)`. -/
def isCSSRequest (request : String) : Bool := (langOf request).isSome

/-- `cssModuleRE.test(id)`: a `.module.<lang>` id (CSS-modules naming convention). -/
def cssModuleScan : List Char → Bool
  | [] => false
  | c :: rest =>
    (c == '.' && "module.".data.isPrefixOf rest && (langAtDot (rest.drop 7)).isSome)
      || cssModuleScan rest

/-- `cssModuleRE.test(id)` on a string id. -/
def cssModuleTest (id : String) : Bool := cssModuleScan id.data

/-- `commonjsProxyRE.test(id)`: the plain substring `?commonjs-proxy`. -/
def commonjsProxyTest (id : String) : Bool := strContains id "?commonjs-proxy"

/-- Match the quoted-or-bare url argument group of `cssUrlRE` at the head of
the list. Returns the captured raw url (quotes included, as the capture group
keeps them) and the rest of the input. -/
def matchUrlArg : List Char → Option (List Char × List Char)
  | [] => none
  | c :: rest =>
    if c == '\'' then
      let s := splitRun (fun d => d != '\'') rest
      match s.1, s.2 with
      | [], _ => none
      | _, q :: r2 => if q == '\'' then some ('\'' :: s.1 ++ ['\''], r2) else none
      | _, [] => none
    else if c == '"' then
      let s := splitRun (fun d => d != '"') rest
      match s.1, s.2 with
      | [], _ => none
      | _, q :: r2 => if q == '"' then some ('"' :: s.1 ++ ['"'], r2) else none
      | _, [] => none
    else
      let s := splitRun (fun d => d != '\'' && d != '"' && d != ')') (c :: rest)
      match s.1 with
      | [] => none
      | _ => some (s.1, s.2)

/-- Match the `url\(\s*ARG\s*\)` part of `cssUrlRE` at the head of the list;
returns (matched text, captured raw url, rest). -/
def matchUrlCallAt (l : List Char) : Option (List Char × List Char × List Char) :=
  if "url(".data.isPrefixOf l then
    let afterParen := l.drop 4
    let w1 := splitRun isJsSpace afterParen
    match matchUrlArg w1.2 with
    | none => none
    | some (raw, a2) =>
      let w2 := splitRun isJsSpace a2
      match w2.2 with
      | [] => none
      | c :: a4 =>
        if c == ')' then
          some ("url(".data ++ w1.1 ++ raw ++ w2.1 ++ [')'], raw, a4)
        else none
  else none

/-- The lookbehind of `cssUrlRE`: position start, or a previous character that
is not a word character, not a hyphen and not in the `\u0080-￿` range (a
JS string is UTF-16, so every code unit of a char above `￿` also falls in
that range; hence every char with code point at least `0x80` is excluded). -/
def urlBoundaryOk : Option Char → Bool
  | none => true
  | some c => !(isWordChar c || c == '-' || c.val ≥ 0x80)

/-- `cssUrlRE.test(code)`: scan every position with its lookbehind context. -/
def cssUrlScan (prev : Option Char) : List Char → Bool
  | [] => false
  | c :: rest =>
    (urlBoundaryOk prev && (matchUrlCallAt (c :: rest)).isSome)
      || cssUrlScan (some c) rest

/-- `cssUrlRE.test(code)` on a string. -/
def cssUrlTest (code : String) : Bool := cssUrlScan none code.data

/-- `cssImageSetRE.test(code)`: an `image-set\(([^)]+)\)` occurrence. -/
def imageSetScan : List Char → Bool
  | [] => false
  | c :: rest =>
    ("image-set(".data.isPrefixOf (c :: rest) &&
      (let s := splitRun (fun d => d != ')') ((c :: rest).drop 10)
       !s.1.isEmpty && (match s.2 with | ')' :: _ => true | _ => false)))
      || imageSetScan rest

/-- `cssImageSetRE.test(code)` on a string. -/
def cssImageSetTest (code : String) : Bool := imageSetScan code.data

/-- Modelled from the spec: `isExternalUrl` lives in `../utils`, which is not
under src/; the spec describes it as the test for values that are already
absolute/external. Modelled as an `http://`, `https://` or protocol-relative
`//` prefix. -/
def isExternalUrl (url : String) : Bool :=
  "http://".data.isPrefixOf url.data || "https://".data.isPrefixOf url.data
    || "//".data.isPrefixOf url.data

/-- Modelled from the spec: `isDataUrl` lives in `../utils`, which is not
under src/; the spec describes it as the test for data URIs (`data:` prefix). -/
def isDataUrl (url : String) : Bool := "data:".data.isPrefixOf url.data

/-- `url.startsWith(c)` for a single-character prefix. -/
def startsWithChar (url : String) (c : Char) : Bool :=
  match url.data with
  | [] => false
  | d :: _ => d == c

/-- Modelled from the spec: `cleanUrl` lives in `../utils`, which is not under
src/; it strips the query/hash part of an id. -/
def cleanUrl (url : String) : String :=
  String.mk (url.data.takeWhile (fun c => c != '?' && c != '#'))

/-- `doUrlReplace(rawUrl, matched, replacer)`: unwrap a quoted value, skip
external/data/fragment urls, otherwise substitute the replacer result keeping
the original quote character. The async replacer is modelled as a pure
function. -/
def doUrlReplace (replacer : String → String) (rawUrl matched : String) : String :=
  let unwrapped :=
    match rawUrl.data with
    | c :: _ =>
      if c == '"' || c == '\'' then
        (String.mk [c], String.mk ((rawUrl.data.drop 1).dropLast))
      else ("", rawUrl)
    | [] => ("", rawUrl)
  let wrap := unwrapped.1
  let url := unwrapped.2
  if isExternalUrl url || isDataUrl url || startsWithChar url '#' then matched
  else "url(" ++ wrap ++ replacer url ++ wrap ++ ")"

/-- Modelled from the spec: the scan loop of the inline rewrite (`asyncReplace`
in `../utils`, not under src/) repeatedly finds the next `url(...)` occurrence
and substitutes the callback result, continuing after the match; each slice
restarts the lookbehind at string start, while a plain advance keeps the true
previous character. `fuel` is the remaining input length, which bounds the
recursion (every match consumes at least one character). -/
def urlReplaceScanAux (repl : List Char → List Char → List Char) :
    Nat → Option Char → List Char → List Char
  | 0, _, l => l
  | _ + 1, _, [] => []
  | fuel + 1, prev, c :: rest =>
    if urlBoundaryOk prev then
      match matchUrlCallAt (c :: rest) with
      | some (matched, raw, after) =>
        repl matched raw ++ urlReplaceScanAux repl fuel none after
      | none => c :: urlReplaceScanAux repl fuel (some c) rest
    else c :: urlReplaceScanAux repl fuel (some c) rest

/-- `rewriteCssUrls(css, replacer)`: `asyncReplace` over `cssUrlRE` with
`doUrlReplace` on every match. -/
def rewriteCssUrls (css : String) (replacer : String → String) : String :=
  String.mk (urlReplaceScanAux
    (fun matched raw => (doUrlReplace replacer (String.mk raw) (String.mk matched)).data)
    css.data.length none css.data)

/-- The three quoting styles a `url()` value can carry. -/
inductive QuoteKind
  | bare | single | double
deriving DecidableEq, Repr

/-- The quote character of a quoting style, as a string. -/
def quoteStr : QuoteKind → String
  | QuoteKind.bare => ""
  | QuoteKind.single => "\x27"
  | QuoteKind.double => "\x22"

/-- Wrap a url in a quoting style, producing the raw captured value. -/
def quoteWrap : QuoteKind → String → String
  | QuoteKind.bare, u => u
  | QuoteKind.single, u => "\x27" ++ u ++ "\x27"
  | QuoteKind.double, u => "\x22" ++ u ++ "\x22"

/-- The skip condition of `doUrlReplace`: external url, data URI, or
intra-document fragment reference. -/
def urlSkipped (url : String) : Bool :=
  isExternalUrl url || isDataUrl url || startsWithChar url '#'

/-- An opaque source-map token: maps are produced and combined by external
toolchains (`magic-string`, the dialect engines, postcss, `combineSourcemaps`),
so only their identity matters to the embedding. -/
structure SMapTok where
  tok : Nat
deriving DecidableEq, Repr

/-- A normalized preprocessor error (the `RollupError` values the adapters
produce). -/
structure PreError where
  message : String
deriving DecidableEq, Repr

/-- The uniform result contract of a preprocessor adapter
(`StylePreprocessorResults`). -/
structure PreprocessResult where
  code : String
  map : Option SMapTok
  additionalMap : Option SMapTok
  errors : List PreError
  deps : List String
deriving DecidableEq, Repr

/-- One entry of the postcss plugin chain assembled by `compileCSS`; user
plugins from the resolved postcss config are opaque names. -/
inductive PluginTag
  | userPlugin (name : String)
  | inlineImportPlugin
  | cssModulesPlugin
  | urlRewritePlugin
deriving DecidableEq, Repr

/-- A message surfaced by the postcss run. The `dirDependency` constructor
carries the files the directory-glob expanded to, because `glob.sync` and the
filesystem are external. -/
inductive PostcssMessage
  | dependency (file : String)
  | dirDependency (files : List String)
  | warning (text : String)
deriving DecidableEq, Repr

/-- The scoped-class export map a CSS-modules run delivers through `getJSON`. -/
structure ModulesRecord where
  entries : List (String × String)
deriving DecidableEq, Repr

/-- The result of one postcss `process` invocation (external toolchain):
output css, messages, the raw result map, and the value delivered through the
`postcss-modules` `getJSON` callback when that plugin is in the chain. -/
structure PostcssOut where
  css : String
  messages : List PostcssMessage
  map : SMapTok
  modulesJson : Option ModulesRecord
deriving DecidableEq, Repr

/-- A resolved postcss configuration (`resolvePostcssConfig` result when not
null). -/
structure PostcssConfig where
  plugins : List PluginTag
deriving DecidableEq, Repr

/-- The external collaborators `compileCSS` invokes, at the interface the
source uses them: the resolved postcss config for this build, the preprocessor
adapters keyed by dialect (applied to source text and the `opts.filename` set
from `cleanUrl(id)`), the postcss toolchain, `combineSourcemaps`,
`formatPostcssSourceMap` internals and `normalizePath` (a `../utils` path
normalizer outside src/). -/
structure CompileEnv where
  postcssConfig : Option PostcssConfig
  preprocess : CssLang → String → String → PreprocessResult
  postcssRun : List PluginTag → String → PostcssOut
  combineMaps : String → SMapTok → SMapTok → SMapTok
  formatMap : SMapTok → String → SMapTok
  normalizePath : String → String

/-- The record `compileCSS` resolves with on success; `none` components model
absent properties of the returned object. -/
structure CompileSuccess where
  code : String
  map : Option SMapTok
  modules : Option ModulesRecord
  deps : Option (List String)
deriving DecidableEq, Repr

/-- JS `Set.prototype.add` on an insertion-ordered dependency set. -/
def addDep (deps : List String) (d : String) : List String :=
  if d ∈ deps then deps else deps ++ [d]

/-- `combineSourcemapsIfExists`: combine only when both maps exist, else pass
the first through. -/
def combineSourcemapsIfExists (combine : String → SMapTok → SMapTok → SMapTok)
    (filename : String) (map1 map2 : Option SMapTok) : Option SMapTok :=
  match map1, map2 with
  | some m1, some m2 => some (combine filename m1 m2)
  | _, _ => map1

/-- `isPreProcessor(lang)`: membership in the frozen `preProcessors` record. -/
def isPreProcessor : Option CssLang → Bool
  | some CssLang.less => true
  | some CssLang.sass => true
  | some CssLang.scss => true
  | some CssLang.styl => true
  | some CssLang.stylus => true
  | _ => false

/-- The strings a postcss run's messages add to the dependency set: dependency
messages contribute their normalized file, dir-dependency messages contribute
the expanded glob matches. -/
def postcssDepAdds (normalize : String → String) : List PostcssMessage → List String
  | [] => []
  | PostcssMessage.dependency f :: rest => normalize f :: postcssDepAdds normalize rest
  | PostcssMessage.dirDependency fs :: rest => fs ++ postcssDepAdds normalize rest
  | PostcssMessage.warning _ :: rest => postcssDepAdds normalize rest

/-- `compileCSS(id, code, config, ...)`. Faithful to the source control flow:
fast path for plain css, preprocessor invocation with fail-fast on its error
list and self-dependency filtering, postcss plugin-chain assembly (the inline
at-import plugin only when the raw code contains `@import`, CSS-modules plugin
only for module ids, url rewrite plugin always), the dead no-plugin early
return, then one postcss run whose messages feed the dependency set.
`modulesOptionEnabled` models `config.css.modules !== false`. -/
def compileCSS (env : CompileEnv) (modulesOptionEnabled : Bool) (id code : String) :
    Except PreError CompileSuccess :=
  let isModule := modulesOptionEnabled && cssModuleTest id
  let needInlineImport := strContains code "@import"
  let hasUrl := cssUrlTest code || cssImageSetTest code
  let lang := langOf id
  if lang = some CssLang.css ∧ env.postcssConfig = none ∧ isModule = false ∧
      needInlineImport = false ∧ hasUrl = false then
    Except.ok { code := code, map := none, modules := none, deps := none }
  else
    let filename := cleanUrl id
    let preStep : Except PreError (String × Option SMapTok × List String) :=
      match lang with
      | some l =>
        if isPreProcessor (some l) then
          let res := env.preprocess l code filename
          match res.errors with
          | e :: _ => Except.error e
          | [] =>
            let pmap := combineSourcemapsIfExists env.combineMaps filename
              res.map res.additionalMap
            let preDeps := res.deps.foldl (fun acc dep =>
              if env.normalizePath dep = env.normalizePath filename
              then acc else addDep acc dep) []
            Except.ok (res.code, pmap, preDeps)
        else Except.ok (code, none, [])
      | none => Except.ok (code, none, [])
    match preStep with
    | Except.error e => Except.error e
    | Except.ok (code2, preprocessorMap, preDeps) =>
      let userPlugins := match env.postcssConfig with
        | some c => c.plugins
        | none => []
      let plugins1 := if needInlineImport
        then PluginTag.inlineImportPlugin :: userPlugins else userPlugins
      let plugins2 := plugins1 ++ [PluginTag.urlRewritePlugin]
      let plugins3 := if isModule
        then PluginTag.cssModulesPlugin :: plugins2 else plugins2
      if plugins3.length = 0 then
        Except.ok { code := code2, map := preprocessorMap, modules := none, deps := none }
      else
        let out := env.postcssRun plugins3 code2
        let deps := (postcssDepAdds env.normalizePath out.messages).foldl addDep preDeps
        let postcssMap := env.formatMap out.map filename
        Except.ok
          { code := out.css
            map := combineSourcemapsIfExists env.combineMaps filename
              (some postcssMap) preprocessorMap
            modules := if isModule then out.modulesJson else none
            deps := some deps }

/-! ## The `vite:css-post` plugin: chunk aggregation, emission, pruning -/

/-- JS `Set.prototype.add` on an insertion-ordered string set. -/
def addToSet (s : List String) (x : String) : List String :=
  if x ∈ s then s else s ++ [x]

/-- JS `Map.prototype.set` on an insertion-ordered association list. -/
def setAssoc (m : List (Nat × String)) (k : Nat) (v : String) : List (Nat × String) :=
  if (m.lookup k).isSome then m.map (fun p => if p.1 = k then (k, v) else p)
  else m ++ [(k, v)]

/-- Build configuration fields the post plugin reads. -/
structure BuildConfig where
  cssCodeSplit : Bool
  minifyEnabled : Bool
  ssr : Bool
  sourcemap : Bool
deriving DecidableEq, Repr

/-- External collaborators of the post plugin: esbuild minification, the
asset-placeholder resolution of `processChunkCSS` (asset filenames and base
handling live outside this subsystem; it returns the rewritten css and the
`importedAssets` names it registered), string-level `@import` hoisting (the
postcss parse/stringify round trip), `emitFile`/`getFileName`, and
`JSON.stringify`. -/
structure PostEnv where
  minify : String → String
  resolveAssetUrls : Bool → String → String × List String
  hoistString : String → String
  emitAssetName : String → String → String
  jsonStringify : String → String

/-- The closure state of `cssPostPlugin`, as reset by `buildStart`:
the per-id compiled css map, the pure-css chunk registry, the per-output
extracted-css map (keyed by output-options identity) and the emitted flag. -/
structure PostPluginState where
  styles : List (String × String)
  pureCssChunks : List String
  outputMap : List (Nat × String)
  hasEmitted : Bool
deriving DecidableEq, Repr

/-- A rendered chunk as the hooks see it: file name, asset name, and the keys
of `chunk.modules` in iteration order. -/
structure ChunkInfo where
  fileName : String
  name : String
  moduleIds : List String
deriving DecidableEq, Repr

/-- The loop of `renderChunk` over `Object.keys(chunk.modules)`: concatenate
recorded styles in module order and clear the pure flag on any module id that
is not a plain stylesheet request. -/
def chunkScan (styles : List (String × String)) (ids : List String) : String × Bool :=
  ids.foldl (fun acc id =>
    let pure := if !isCSSRequest id || cssModuleTest id || commonjsProxyTest id
      then false else acc.2
    let css := match styles.lookup id with
      | some s => acc.1 ++ s
      | none => acc.1
    (css, pure)) ("", true)

/-- `processChunkCSS`: resolve asset url placeholders, hoist `@import` when one
remains, minify when asked and enabled. Returns the css and the registered
`importedAssets` names. -/
def processChunkCSS (env : PostEnv) (cfg : BuildConfig) (inlined minify : Bool)
    (css : String) : String × List String :=
  let r := env.resolveAssetUrls inlined css
  let css2 := if strContains r.1 "@import" then env.hoistString r.1 else r.1
  let css3 := if minify && cfg.minifyEnabled then env.minify css2 else css2
  (css3, r.2)

/-- Everything `renderChunk` produces besides the state: a replacement for the
chunk code (legacy style injection), the `importedCss` names added to the
chunk's metadata, and the `importedAssets` additions. -/
structure RenderOut where
  replacedCode : Option String
  importedCssAdds : List String
  importedAssetsAdds : List String
deriving DecidableEq, Repr

/-- `renderChunk(code, chunk, opts)` of `vite:css-post`. `isEsOrCjs` models
`opts.format === 'es' || opts.format === 'cjs'`, `optsKey` the identity of the
output-options object keying `outputToExtractedCSSMap`. -/
def renderChunkModel (env : PostEnv) (cfg : BuildConfig) (st : PostPluginState)
    (chunk : ChunkInfo) (isEsOrCjs : Bool) (optsKey : Nat) (code : String) :
    PostPluginState × RenderOut :=
  let scan := chunkScan st.styles chunk.moduleIds
  let chunkCSS := scan.1
  let isPureCssChunk := scan.2
  if chunkCSS = "" then (st, ⟨none, [], []⟩)
  else if cfg.cssCodeSplit then
    let st1 := if isPureCssChunk
      then { st with pureCssChunks := addToSet st.pureCssChunks chunk.fileName }
      else st
    if isEsOrCjs then
      let p := processChunkCSS env cfg false true chunkCSS
      let emitted := env.emitAssetName (chunk.name ++ ".css") p.1
      (st1, ⟨none, [emitted], p.2⟩)
    else if !cfg.ssr then
      let p := processChunkCSS env cfg true true chunkCSS
      let inject := "var __vite_style__ = document.createElement(\x27style\x27);"
        ++ "__vite_style__.innerHTML = " ++ env.jsonStringify p.1 ++ ";"
        ++ "document.head.appendChild(__vite_style__);"
      (st1, ⟨some (inject ++ code), [], p.2⟩)
    else (st1, ⟨none, [], []⟩)
  else
    let p := processChunkCSS env cfg false false chunkCSS
    let prev := (st.outputMap.lookup optsKey).getD ""
    ({ st with outputMap := setAssoc st.outputMap optsKey (prev ++ p.1) },
      ⟨none, [], p.2⟩)

/-- `path.basename` of a posix chunk file name. -/
def basename (p : String) : String :=
  String.mk (p.data.foldl (fun acc c => if c == '/' then [] else acc ++ [c]) [])

/-- Match the `"[^"]*(?:name1|name2|...)"` part of `emptyChunkRE` at the head
of the list: a double-quoted run whose content ends with one of the escaped
basenames (dots are escaped by the source, so names are literal here).
Returns the consumed text including both quotes, and the rest. -/
def matchQuotedName (names : List String) : List Char → Option (List Char × List Char)
  | [] => none
  | c :: rest =>
    if c == '"' then
      let s := splitRun (fun d => d != '"') rest
      match s.2 with
      | q :: r2 =>
        if q == '"' && names.any (fun n => n.data.isSuffixOf s.1) then
          some ('"' :: s.1 ++ ['"'], r2)
        else none
      | [] => none
    else none

/-- Match one `\bimport\s*"[^"]*(?:names)";\n?` occurrence (the ES-format
`emptyChunkRE`) at the head of the list, returning the match length. -/
def matchEmptyImportAt (names : List String) (prev : Option Char) (l : List Char) :
    Option Nat :=
  let boundary := match prev with
    | none => true
    | some c => !isWordChar c
  if !boundary then none
  else if "import".data.isPrefixOf l then
    let rest := l.drop 6
    let w := splitRun isJsSpace rest
    match matchQuotedName names w.2 with
    | some (q, r2) =>
      match r2 with
      | c :: r3 =>
        if c == ';' then
          match r3 with
          | nl :: _ => some (6 + w.1.length + q.length + 1 + (if nl == '\n' then 1 else 0))
          | [] => some (6 + w.1.length + q.length + 1)
        else none
      | [] => none
    | none => none
  else none

/-- Match one `\brequire\(\s*"[^"]*(?:names)"\);\n?` occurrence (the non-ES
`emptyChunkRE`) at the head of the list, returning the match length. -/
def matchEmptyRequireAt (names : List String) (prev : Option Char) (l : List Char) :
    Option Nat :=
  let boundary := match prev with
    | none => true
    | some c => !isWordChar c
  if !boundary then none
  else if "require(".data.isPrefixOf l then
    let rest := l.drop 8
    let w := splitRun isJsSpace rest
    match matchQuotedName names w.2 with
    | some (q, r2) =>
      match r2 with
      | c :: r3 =>
        if c == ')' then
          match r3 with
          | d :: r4 =>
            if d == ';' then
              match r4 with
              | nl :: _ =>
                some (8 + w.1.length + q.length + 2 + (if nl == '\n' then 1 else 0))
              | [] => some (8 + w.1.length + q.length + 2)
            else none
          | [] => none
        else none
      | [] => none
    | none => none
  else none

/-- The replacement the source builds for a match of length `m`:
`/* empty css ` + `''.padEnd(m - 15)` + `*/` (comment placeholder sized to
preserve source-map locations; `padEnd` yields nothing when `m` is below 15). -/
def emptyCssReplacement (m : Nat) : String :=
  "/* empty css " ++ String.mk (List.replicate (m - 15) ' ') ++ "*/"

/-- The global `code.replace(emptyChunkRE, ...)` scan: at each position try the
format's pattern against the live lookbehind, substitute the sized comment on a
match and continue after it. `fuel` is the remaining input length (every match
consumes at least one character). -/
def emptyChunkReplaceAux (isEs : Bool) (names : List String) :
    Nat → Option Char → List Char → List Char
  | 0, _, l => l
  | _ + 1, _, [] => []
  | fuel + 1, prev, c :: rest =>
    match (if isEs then matchEmptyImportAt names prev (c :: rest)
           else matchEmptyRequireAt names prev (c :: rest)) with
    | some m =>
      (emptyCssReplacement m).data
        ++ emptyChunkReplaceAux isEs names fuel (((c :: rest).take m).getLast?)
            ((c :: rest).drop m)
    | none => c :: emptyChunkReplaceAux isEs names fuel (some c) rest

/-- `code.replace(emptyChunkRE, m => comment)` on a string. -/
def emptyChunkReplace (isEs : Bool) (names : List String) (code : String) : String :=
  String.mk (emptyChunkReplaceAux isEs names code.data.length none code.data)

/-- An output chunk as `generateBundle` sees it: code, `imports` and the
`viteMetadata.importedCss` set. -/
structure OutChunk where
  code : String
  chunkImports : List String
  importedCss : List String
deriving DecidableEq, Repr

/-- A bundle entry: a chunk or an asset. -/
inductive BundleEntry
  | chunk (c : OutChunk)
  | asset (source : String)
deriving DecidableEq, Repr

/-- The output bundle: an insertion-ordered map from file name to entry. -/
abbrev Bundle := List (String × BundleEntry)

/-- The `chunk.imports.filter` callback fold: drop pure-css imports, merging
each dropped chunk's `importedCss` (looked up in the current bundle) into this
chunk's set; keep the rest in order. -/
def mergePureImports (bundle : Bundle) (pure : List String) (c : OutChunk) : OutChunk :=
  let r := c.chunkImports.foldl (fun (acc : List String × List String) f =>
    if f ∈ pure then
      match bundle.lookup f with
      | some (BundleEntry.chunk pc) => (acc.1, pc.importedCss.foldl addToSet acc.2)
      | _ => (acc.1, acc.2)
    else (acc.1 ++ [f], acc.2)) ([], c.importedCss)
  { c with chunkImports := r.1, importedCss := r.2 }

/-- The per-chunk body of the `for (const file in bundle)` loop: re-link the
chunk away from pure-css chunks and blank matched import/require statements. -/
def processBundleChunk (isEs : Bool) (names pure : List String) (bundle : Bundle)
    (c : OutChunk) : OutChunk :=
  let c1 := mergePureImports bundle pure c
  { c1 with code := emptyChunkReplace isEs names c1.code }

/-- Replace the entry at one key of the bundle (the in-place mutation of
`bundle[file]`). -/
def updateBundleAt (b : Bundle) (f : String) (e : BundleEntry) : Bundle :=
  b.map (fun p => if p.1 = f then (p.1, e) else p)

/-- One iteration of the `for (const file in bundle)` loop at one bundle key:
mutate the chunk there in place, leave assets and missing keys alone. -/
def pruneStep (isEs : Bool) (names pure : List String) (b : Bundle) (f : String) :
    Bundle :=
  match b.lookup f with
  | some (BundleEntry.chunk c) =>
    updateBundleAt b f (BundleEntry.chunk (processBundleChunk isEs names pure b c))
  | _ => b

/-- The pure-css pruning pass of `generateBundle`: iterate the bundle keys in
order, mutating each chunk in place (later chunks observe earlier mutations,
as in the source), then delete every pure-css chunk, recording the removed
entries. Returns the pruned bundle and the removed-file registry additions. -/
def generateBundlePrune (isEs : Bool) (pure : List String) (bundle : Bundle) :
    Bundle × List (String × BundleEntry) :=
  if pure.isEmpty then (bundle, [])
  else
    let names := pure.map basename
    let keys := bundle.map Prod.fst
    let b1 := keys.foldl (pruneStep isEs names pure) bundle
    let removed := pure.foldl (fun acc f =>
      match b1.lookup f with
      | some e => acc ++ [(f, e)]
      | none => acc) []
    (b1.filter (fun p => !pure.contains p.1), removed)

/-- `generateBundle(opts, bundle)` of `vite:css-post`: honour the
skip-asset-emit marker, prune pure-css chunks when the registry is non-empty,
then emit the aggregated extracted css once, guarded by the shared
`hasEmitted` flag. Returns the new state, the rewritten bundle and the emitted
assets as (name, source) pairs. -/
def generateBundleModel (env : PostEnv) (cfg : BuildConfig) (st : PostPluginState)
    (isEs : Bool) (optsKey : Nat) (skipAssetEmit : Bool) (bundle : Bundle) :
    PostPluginState × Bundle × List (String × String) :=
  if skipAssetEmit then (st, bundle, [])
  else
    let pr := if st.pureCssChunks.isEmpty then (bundle, [])
      else generateBundlePrune isEs st.pureCssChunks bundle
    let bundle1 := pr.1
    let extractedCss := (st.outputMap.lookup optsKey).getD ""
    if extractedCss ≠ "" ∧ st.hasEmitted = false then
      let final := if cfg.minifyEnabled then env.minify extractedCss else extractedCss
      ({ st with hasEmitted := true }, bundle1, [("style.css", final)])
    else (st, bundle1, [])

/-- A sequence of finalize-pass invocations within one build session, each with
its output-options identity, skip marker and bundle; collects every emitted
asset. -/
def runGenerateBundles (env : PostEnv) (cfg : BuildConfig) (st : PostPluginState)
    (isEs : Bool) (calls : List (Nat × Bool × Bundle)) :
    PostPluginState × List (String × String) :=
  calls.foldl (fun acc call =>
    let r := generateBundleModel env cfg acc.1 isEs call.1 call.2.1 call.2.2
    (r.1, acc.2 ++ r.2.2)) (st, [])

/-- Eligibility of one finalize invocation to emit the aggregated css, against
the session state at build start: not skipped, and a non-empty buffer is
recorded for its output target. -/
def emitEligible (st : PostPluginState) (call : Nat × Bool × Bundle) : Bool :=
  call.2.1 = false && (st.outputMap.lookup call.1).getD "" ≠ ""

/-! ## The `@import` hoist plugin -/

/-- A postcss node as `AtImportHoistPlugin` distinguishes them: an at-rule with
its name, or any other rule with its text. -/
structure PNode where
  isAtRule : Bool
  name : String
  text : String
deriving DecidableEq, Repr

/-- Is this node an `@import` rule? -/
def isImportRule (n : PNode) : Bool := n.isAtRule && n.name == "import"

/-- A postcss root: top-level nodes, each tagged with its identity (postcss
nodes are moved by identity, not by value). -/
abbrev PRoot := List (Nat × PNode)

/-- The `walkAtRules` collection loop: visit rules in document order and
`unshift` every `@import`, recording them in reverse. -/
def collectImportsRev (root : PRoot) : PRoot :=
  root.foldl (fun acc p => if isImportRule p.2 then p :: acc else acc) []

/-- `root.prepend(node)`: move the node (by identity) to the front. -/
def prependMove (p : Nat × PNode) (root : PRoot) : PRoot :=
  p :: root.filter (fun q => q.1 ≠ p.1)

/-- `hoistAtImports` as performed by `AtImportHoistPlugin.Once`: collect the
`@import` rules in reverse and prepend each in turn. The postcss parse and
stringify round trip is external, so the model works on the root node list. -/
def hoistAtImportsModel (root : PRoot) : PRoot :=
  (collectImportsRev root).foldl (fun d p => prependMove p d) root

/-! ## `loadPreprocessor` -/

/-- A JS error as the loader observes it: message, stack, and whether its
`code` is `MODULE_NOT_FOUND`. -/
structure JsError where
  message : String
  stack : String
  isModuleNotFound : Bool
deriving DecidableEq, Repr

/-- An opaque loaded dialect engine. -/
structure EngineTok where
  tok : Nat
deriving DecidableEq, Repr

/-- The external module loader behaviour: the combined
`require.resolve(lang, { paths: [root, ...fallbackPaths] })` plus
`require(resolved)` step, and the stack the wrapper `new Error` receives in
the catch clause. -/
structure LoadEnv where
  requireResolve : String → Except JsError EngineTok
  freshStack : String

/-- The missing-dependency message of `loadPreprocessor`. -/
def notFoundMessage (lang : String) : String :=
  "Preprocessor dependency \x22" ++ lang ++ "\x22 not found. Did you install it?"

/-- The load-failure wrapper message of `loadPreprocessor`. -/
def failedLoadMessage (lang innerMessage : String) : String :=
  "Preprocessor dependency \x22" ++ lang ++ "\x22 failed to load:\n" ++ innerMessage

/-- `loadPreprocessor(lang, root)` over the `loadedPreprocessors` cache:
return the cached engine, otherwise resolve and require the dialect package,
caching on success; on `MODULE_NOT_FOUND` raise the actionable
missing-dependency error, on any other failure raise the wrapper whose stack
prepends the original stack. Returns the engine and the updated cache. -/
def loadPreprocessor (env : LoadEnv) (cache : List (String × EngineTok)) (lang : String) :
    Except JsError (EngineTok × List (String × EngineTok)) :=
  match cache.lookup lang with
  | some eng => Except.ok (eng, cache)
  | none =>
    match env.requireResolve lang with
    | Except.ok eng => Except.ok (eng, cache ++ [(lang, eng)])
    | Except.error e =>
      if e.isModuleNotFound then
        Except.error
          { message := notFoundMessage lang
            stack := env.freshStack
            isModuleNotFound := false }
      else
        Except.error
          { message := failedLoadMessage lang e.message
            stack := e.stack ++ "\n" ++ env.freshStack
            isModuleNotFound := false }

/-! ## The `vite:css` dev/build transform and its per-build cache -/

/-- JS `Map.prototype.set` on the string-keyed module cache. -/
def setModuleCache (m : List (String × ModulesRecord)) (id : String)
    (v : ModulesRecord) : List (String × ModulesRecord) :=
  if (m.lookup id).isSome then m.map (fun p => if p.1 = id then (id, v) else p)
  else m ++ [(id, v)]

/-- The observable session state of the `vite:css` transform: the
`cssModulesCache` map for this build and the log of compile invocations (one
entry per `compileCSS` call, in order). -/
structure DevSessionState where
  moduleCache : List (String × ModulesRecord)
  compileLog : List String
deriving DecidableEq, Repr

/-- One `transform(raw, id)` invocation of `vite:css`: skip non-css and
commonjs-proxy requests; otherwise run the compiler (logged) and store the
scoped-class record under the id when one is produced. `compileModules`
abstracts the `modules` component of this session's `compileCSS` results. -/
def cssTransformStep (compileModules : String → Option ModulesRecord)
    (st : DevSessionState) (id : String) : DevSessionState :=
  if !isCSSRequest id || commonjsProxyTest id then st
  else
    let modules := compileModules id
    { moduleCache := match modules with
        | some m => setModuleCache st.moduleCache id m
        | none => st.moduleCache
      compileLog := st.compileLog ++ [id] }

/-- A sequence of transform invocations within one session. -/
def runCssTransforms (compileModules : String → Option ModulesRecord)
    (st : DevSessionState) (ids : List String) : DevSessionState :=
  ids.foldl (cssTransformStep compileModules) st

/-- Does the head of a url value carry no quote character? (The shape of a
bare captured value: `cssUrlRE`'s third alternative excludes quotes.) -/
def bareNoQuoteHead (u : String) : Bool :=
  match u.data with
  | [] => true
  | c :: _ => !(c == '"' || c == '\'')

/-! ## Helper lemmas -/

theorem mem_addDep {l : List String} {d x : String} (h : x ∈ addDep l d) :
    x ∈ l ∨ x = d := by
  unfold addDep at h
  by_cases hd : d ∈ l
  · rw [if_pos hd] at h
    exact Or.inl h
  · rw [if_neg hd] at h
    rcases List.mem_append.mp h with h1 | h1
    · exact Or.inl h1
    · exact Or.inr (List.mem_singleton.mp h1)

theorem mem_foldl_addDep {l2 l1 : List String} {x : String}
    (h : x ∈ l2.foldl addDep l1) : x ∈ l1 ∨ x ∈ l2 := by
  induction l2 generalizing l1 with
  | nil => exact Or.inl h
  | cons d t ih =>
    simp only [List.foldl_cons] at h
    rcases ih h with h1 | h1
    · rcases mem_addDep h1 with h2 | h2
      · exact Or.inl h2
      · subst h2
        exact Or.inr (List.mem_cons_self _ _)
    · exact Or.inr (List.mem_cons_of_mem _ h1)

theorem preDeps_filter_sound {normalize : String → String} {target : String}
    {deps acc : List String}
    (hacc : ∀ y ∈ acc, normalize y ≠ target) {x : String}
    (h : x ∈ deps.foldl
      (fun a dep => if normalize dep = target then a else addDep a dep) acc) :
    normalize x ≠ target := by
  induction deps generalizing acc with
  | nil => exact hacc x h
  | cons d t ih =>
    simp only [List.foldl_cons] at h
    by_cases hd : normalize d = target
    · rw [if_pos hd] at h
      exact ih hacc h
    · rw [if_neg hd] at h
      refine ih (fun y hy => ?_) h
      rcases mem_addDep hy with h2 | h2
      · exact hacc y h2
      · subst h2
        exact hd


theorem isPrefixOf_append_self (a b : List Char) : a.isPrefixOf (a ++ b) = true := by
  induction a with
  | nil => simp [List.isPrefixOf]
  | cons c t ih => simp [List.isPrefixOf, ih]

theorem lookup_append_singleton {β : Type} (cache : List (String × β)) (k : String)
    (v : β) (hmiss : cache.lookup k = none) : (cache ++ [(k, v)]).lookup k = some v := by
  induction cache with
  | nil => simp [List.lookup]
  | cons p t ih =>
    cases p with
    | mk k1 v1 =>
      by_cases hbeq : k = k1
      · subst hbeq
        simp [List.lookup] at hmiss
      · have hb : (k == k1) = false := beq_eq_false_iff_ne.mpr hbeq
        simp only [List.cons_append, List.lookup] at hmiss ⊢
        rw [hb] at hmiss ⊢
        exact ih hmiss

theorem lookup_map_set_ne {α β : Type} [BEq α] [LawfulBEq α] [DecidableEq α]
    (m : List (α × β)) (id id' : α) (v : β) (hne : id' ≠ id) :
    (m.map (fun p => if p.1 = id then (id, v) else p)).lookup id' = m.lookup id' := by
  induction m with
  | nil => rfl
  | cons p t ih =>
    cases p with
    | mk k w =>
      rw [List.map_cons]
      by_cases hk : k = id
      · subst hk
        rw [if_pos rfl]
        have h2 : (id' == k) = false := beq_eq_false_iff_ne.mpr hne
        simp only [List.lookup, h2]
        exact ih
      · rw [if_neg hk]
        simp only [List.lookup]
        cases hbeq : id' == k
        · exact ih
        · rfl

theorem lookup_append_single_ne {α β : Type} [BEq α] [LawfulBEq α]
    (m : List (α × β)) (id id' : α) (v : β) (hne : id' ≠ id) :
    (m ++ [(id, v)]).lookup id' = m.lookup id' := by
  induction m with
  | nil =>
    have h2 : (id' == id) = false := beq_eq_false_iff_ne.mpr hne
    simp only [List.nil_append, List.lookup, h2]
  | cons p t ih =>
    cases p with
    | mk k w =>
      simp only [List.cons_append, List.lookup]
      cases hbeq : id' == k
      · exact ih
      · rfl

theorem failed_ne_notFound (lang m : String) :
    failedLoadMessage lang m ≠ notFoundMessage lang := by
  intro h
  have hd : (failedLoadMessage lang m).data = (notFoundMessage lang).data :=
    congrArg String.data h
  simp only [failedLoadMessage, notFoundMessage, String.data_append,
    List.append_assoc] at hd
  have h2 := List.append_cancel_left (List.append_cancel_left hd)
  have h3 : ('\x22' :: (" failed to load:\n").data) ++ m.data =
      '\x22' :: (" not found. Did you install it?").data := h2
  simp at h3

/-! ## Claim theorems -/

/-- Claim C1: for every input stylesheet whose language is plain CSS, with no
resolved postcss configuration, not matching the CSS-modules naming
convention, whose source contains no `@import` substring and no
url()/image-set() occurrence, `compileCSS` returns the input code unchanged,
with a null source map and no dependency set. -/
theorem compileCSS_plain_fast_path (env : CompileEnv) (mo : Bool) (id code : String)
    (hl : langOf id = some CssLang.css) (hpc : env.postcssConfig = none)
    (hm : cssModuleTest id = false) (hi : strContains code "@import" = false)
    (hu : cssUrlTest code = false) (hs : cssImageSetTest code = false) :
    compileCSS env mo id code =
      Except.ok { code := code, map := none, modules := none, deps := none } := by
  simp [compileCSS, hl, hpc, hm, hi, hu, hs]

/-- Witness for C1: a concrete plain stylesheet takes the fast path. -/
theorem compileCSS_plain_fast_path_witness :
    compileCSS
      ⟨none, fun _ s _ => ⟨s, none, none, [], []⟩, fun _ s => ⟨s, [], ⟨0⟩, none⟩,
        fun _ _ m => m, fun m _ => m, fun s => s⟩
      true "/x/a.css" "body { color: red }" =
      Except.ok
        { code := "body { color: red }", map := none, modules := none, deps := none } :=
  compileCSS_plain_fast_path _ _ _ _ (by decide) rfl (by decide) (by decide)
    (by decide) (by decide)

/-- Claim C7: for every module whose preprocessor adapter returns a non-empty
errors array, `compileCSS` stops the pipeline for that module by raising the
first error of the array, and no partial output is returned for that module. -/
theorem compileCSS_preprocessor_error_aborts (env : CompileEnv) (mo : Bool)
    (id code : String) (l : CssLang) (e : PreError) (rest : List PreError)
    (hl : langOf id = some l) (hp : isPreProcessor (some l) = true)
    (he : (env.preprocess l code (cleanUrl id)).errors = e :: rest) :
    compileCSS env mo id code = Except.error e := by
  have hne : l ≠ CssLang.css := by
    intro h
    subst h
    simp [isPreProcessor] at hp
  unfold compileCSS
  rw [if_neg (fun hcond => hne (by
    have := hcond.1
    rw [hl] at this
    exact Option.some.inj this))]
  simp [hl, hp, he]

/-- Witness for C7: a concrete scss module whose adapter reports one error. -/
theorem compileCSS_preprocessor_error_aborts_witness :
    compileCSS
      ⟨none, fun _ _ _ => ⟨"", none, none, [⟨"bad"⟩], []⟩,
        fun _ s => ⟨s, [], ⟨0⟩, none⟩, fun _ _ m => m, fun m _ => m, fun s => s⟩
      true "/x/a.scss" "x" = Except.error ⟨"bad"⟩ :=
  compileCSS_preprocessor_error_aborts _ _ _ _ CssLang.scss ⟨"bad"⟩ []
    (by decide) (by decide) rfl

/-- Claim C10: for every preprocessed module, the dependency set returned by
`compileCSS` never contains the module's own file: a dependency reported by
the preprocessor whose normalized path equals the normalized path of the
module's own filename is filtered out before being added to the set (the
hypothesis on the external postcss run's messages confines the statement to
the preprocessor-reported dependencies the claim is about). -/
theorem compileCSS_no_self_dependency (env : CompileEnv) (mo : Bool)
    (id code : String) (l : CssLang)
    (hl : langOf id = some l) (hp : isPreProcessor (some l) = true)
    (hmsg : ∀ plugins src f,
      f ∈ postcssDepAdds env.normalizePath (env.postcssRun plugins src).messages →
      env.normalizePath f ≠ env.normalizePath (cleanUrl id))
    (res : CompileSuccess) (hok : compileCSS env mo id code = Except.ok res)
    (ds : List String) (hds : res.deps = some ds) :
    ∀ d ∈ ds, env.normalizePath d ≠ env.normalizePath (cleanUrl id) := by
  intro d hd
  have hne : l ≠ CssLang.css := by
    intro h
    subst h
    simp [isPreProcessor] at hp
  unfold compileCSS at hok
  simp only [hl, hp] at hok
  rw [if_neg (fun hcond => hne (Option.some.inj hcond.1))] at hok
  rcases herr : (env.preprocess l code (cleanUrl id)).errors with _ | ⟨e, tl⟩
  · rw [herr] at hok
    cases hmod : mo && cssModuleTest id <;> cases himp : strContains code "@import" <;>
      simp [hmod, himp] at hok
    all_goals (
      rw [← hok] at hds
      simp only [Option.some.injEq] at hds
      subst hds
      rcases mem_foldl_addDep hd with h1 | h1
      · exact preDeps_filter_sound (fun y hy => absurd hy (List.not_mem_nil y)) h1
      · exact hmsg _ _ _ h1)
  · rw [herr] at hok
    cases hok

/-- Witness for C10: a concrete scss module whose adapter reports the module
itself plus one real dependency; the theorem yields that the surviving
dependency is not the module file. -/
theorem compileCSS_no_self_dependency_witness :
    ("/x/dep.scss" : String) ≠ "/x/a.scss" := by
  have h := compileCSS_no_self_dependency
    ⟨none, fun _ s _ => ⟨s, none, none, [], ["/x/a.scss", "/x/dep.scss"]⟩,
      fun _ s => ⟨s, [], ⟨0⟩, none⟩, fun _ _ m => m, fun m _ => m, fun s => s⟩
    true "/x/a.scss" "y" CssLang.scss (by decide) (by decide)
    (by
      intro plugins srcs f hf
      simp [postcssDepAdds] at hf)
    _ rfl _ rfl
  exact fun he => h "/x/dep.scss" (by decide) he

/-- Claim C6: for every url() value in the inline rewrite pass, if the
unquoted url is external/absolute, a data URI, or begins with a hash, the
original matched text is returned unchanged; otherwise the url is replaced by
the replacer result wrapped in the same quote character (single, double, or
none) as the original value. -/
theorem doUrlReplace_skip_or_rewrap (repl : String → String) (q : QuoteKind)
    (u matched : String) (hq : q = QuoteKind.bare → bareNoQuoteHead u = true) :
    doUrlReplace repl (quoteWrap q u) matched =
      if urlSkipped u then matched
      else "url(" ++ quoteStr q ++ repl u ++ quoteStr q ++ ")" := by
  cases u with
  | mk lu =>
    cases q with
    | bare =>
      cases lu with
      | nil => simp [doUrlReplace, quoteWrap, quoteStr, urlSkipped]
      | cons c tl =>
        have hb := hq rfl
        simp only [bareNoQuoteHead, Bool.not_eq_true', Bool.or_eq_false_iff] at hb
        simp [doUrlReplace, quoteWrap, quoteStr, urlSkipped, hb.1, hb.2]
    | single =>
      simp [doUrlReplace, quoteWrap, quoteStr, urlSkipped, String.data_append]
    | double =>
      simp [doUrlReplace, quoteWrap, quoteStr, urlSkipped, String.data_append]

/-- Witness for C6: the data URI, fragment and external examples are kept
unchanged, and a relative url is rewritten inside its original quoting. -/
theorem doUrlReplace_skip_or_rewrap_witness :
    doUrlReplace (fun _ => "/assets/logo.png") (quoteWrap QuoteKind.bare "./logo.png")
      "url(./logo.png)" = "url(/assets/logo.png)" ∧
    doUrlReplace (fun _ => "x") (quoteWrap QuoteKind.double "data:image/png;base64,AAAA")
      "url(\x22data:image/png;base64,AAAA\x22)"
      = "url(\x22data:image/png;base64,AAAA\x22)" ∧
    doUrlReplace (fun _ => "x") (quoteWrap QuoteKind.bare "#clip") "url(#clip)"
      = "url(#clip)" ∧
    doUrlReplace (fun _ => "x") (quoteWrap QuoteKind.single "https://example.com/x.png")
      "url(\x27https://example.com/x.png\x27)"
      = "url(\x27https://example.com/x.png\x27)" := by
  refine ⟨?_, ?_, ?_, ?_⟩
  · exact (doUrlReplace_skip_or_rewrap _ QuoteKind.bare _ _
      (fun _ => by decide)).trans (by decide)
  · exact (doUrlReplace_skip_or_rewrap _ QuoteKind.double _ _
      (fun h => nomatch h)).trans (by decide)
  · exact (doUrlReplace_skip_or_rewrap _ QuoteKind.bare _ _
      (fun _ => by decide)).trans (by decide)
  · exact (doUrlReplace_skip_or_rewrap _ QuoteKind.single _ _
      (fun h => nomatch h)).trans (by decide)

/-- Claim C8: loading a preprocessor dialect raises a distinct actionable
error naming the missing package on MODULE_NOT_FOUND; when the engine is found
but throws during load, the raised error wraps the original message with the
dialect name and keeps the original stack as a prefix; a successfully loaded
engine is cached, so a later load returns the cached engine without consulting
the loader again. -/
theorem loadPreprocessor_spec (env : LoadEnv) (cache : List (String × EngineTok))
    (lang : String) (hmiss : cache.lookup lang = none) :
    (∀ e, env.requireResolve lang = Except.error e → e.isModuleNotFound = true →
      loadPreprocessor env cache lang =
        Except.error ⟨notFoundMessage lang, env.freshStack, false⟩) ∧
    (∀ e, env.requireResolve lang = Except.error e → e.isModuleNotFound = false →
      loadPreprocessor env cache lang =
        Except.error
          ⟨failedLoadMessage lang e.message, e.stack ++ "\n" ++ env.freshStack, false⟩ ∧
      e.stack.data.isPrefixOf (e.stack ++ "\n" ++ env.freshStack).data = true ∧
      failedLoadMessage lang e.message ≠ notFoundMessage lang) ∧
    (∀ eng, env.requireResolve lang = Except.ok eng →
      loadPreprocessor env cache lang = Except.ok (eng, cache ++ [(lang, eng)]) ∧
      ∀ env2 : LoadEnv, loadPreprocessor env2 (cache ++ [(lang, eng)]) lang =
        Except.ok (eng, cache ++ [(lang, eng)])) := by
  refine ⟨?_, ?_, ?_⟩
  · intro e hres hmnf
    simp [loadPreprocessor, hmiss, hres, hmnf]
  · intro e hres hmnf
    refine ⟨by simp [loadPreprocessor, hmiss, hres, hmnf], ?_, failed_ne_notFound _ _⟩
    have hdata : (e.stack ++ "\n" ++ env.freshStack).data =
        e.stack.data ++ ("\n" ++ env.freshStack).data := by
      simp [String.data_append]
    rw [hdata]
    exact isPrefixOf_append_self _ _
  · intro eng hres
    constructor
    · simp [loadPreprocessor, hmiss, hres]
    · intro env2
      have hlook : (cache ++ [(lang, eng)]).lookup lang = some eng :=
        lookup_append_singleton cache lang eng hmiss
      simp [loadPreprocessor, hlook]

/-- Witness for C8: the three loader behaviours at concrete environments. -/
theorem loadPreprocessor_spec_witness :
    loadPreprocessor ⟨fun _ => Except.error ⟨"boom", "stk", true⟩, "fresh"⟩ [] "sass" =
      Except.error ⟨notFoundMessage "sass", "fresh", false⟩ ∧
    (loadPreprocessor ⟨fun _ => Except.error ⟨"boom", "stk", false⟩, "fresh"⟩ [] "stylus" =
      Except.error
        ⟨failedLoadMessage "stylus" "boom", "stk" ++ "\n" ++ "fresh", false⟩ ∧
      ("stk" : String).data.isPrefixOf (("stk" : String) ++ "\n" ++ "fresh").data = true ∧
      failedLoadMessage "stylus" "boom" ≠ notFoundMessage "stylus") ∧
    loadPreprocessor ⟨fun _ => Except.ok ⟨7⟩, "fresh"⟩ [] "less" =
      Except.ok (⟨7⟩, [("less", ⟨7⟩)]) ∧
    loadPreprocessor ⟨fun _ => Except.error ⟨"zz", "zz", true⟩, "other"⟩
        [("less", ⟨7⟩)] "less" = Except.ok (⟨7⟩, [("less", ⟨7⟩)]) := by
  refine ⟨?_, ?_, ?_, ?_⟩
  · exact (loadPreprocessor_spec ⟨fun _ => Except.error ⟨"boom", "stk", true⟩, "fresh"⟩
      [] "sass" rfl).1 ⟨"boom", "stk", true⟩ rfl rfl
  · exact (loadPreprocessor_spec ⟨fun _ => Except.error ⟨"boom", "stk", false⟩, "fresh"⟩
      [] "stylus" rfl).2.1 ⟨"boom", "stk", false⟩ rfl rfl
  · exact ((loadPreprocessor_spec ⟨fun _ => Except.ok ⟨7⟩, "fresh"⟩
      [] "less" rfl).2.2 ⟨7⟩ rfl).1
  · exact ((loadPreprocessor_spec ⟨fun _ => Except.ok ⟨7⟩, "fresh"⟩
      [] "less" rfl).2.2 ⟨7⟩ rfl).2
      ⟨fun _ => Except.error ⟨"zz", "zz", true⟩, "other"⟩

/-- Counterexample for C9: two transform invocations of the same module id in
one session run the compiler twice, refuting production of the record at most
once per build per module id. -/
theorem cssTransform_recompiles_counterexample :
    ¬ ((runCssTransforms (fun _ => some ⟨[("a", "b")]⟩) ⟨[], []⟩
        ["/x/s.module.css", "/x/s.module.css"]).compileLog.count "/x/s.module.css" ≤ 1) := by
  decide

/-- Claim C9 (amended): every transform invocation of a stylesheet module
compiles it anew (one compiler run per invocation, appended to the log), and
writing the session cache entry for one module id never changes the cache
entry of any other module id. -/
theorem cssTransform_cache_spec (compileModules : String → Option ModulesRecord)
    (st : DevSessionState) (id id' : String)
    (hcss : isCSSRequest id = true) (hproxy : commonjsProxyTest id = false)
    (hne : id' ≠ id) :
    (cssTransformStep compileModules st id).compileLog = st.compileLog ++ [id] ∧
    (cssTransformStep compileModules st id).moduleCache.lookup id' =
      st.moduleCache.lookup id' := by
  cases hcm : compileModules id with
  | none =>
    constructor
    · simp [cssTransformStep, hcss, hproxy, hcm]
    · simp [cssTransformStep, hcss, hproxy, hcm]
  | some m =>
    constructor
    · simp [cssTransformStep, hcss, hproxy, hcm]
    · simp only [cssTransformStep, hcss, hproxy, hcm, Bool.not_true, Bool.false_or,
        Bool.false_eq_true, if_false]
      unfold setModuleCache
      by_cases hs : (st.moduleCache.lookup id).isSome
      · rw [if_pos hs]
        exact lookup_map_set_ne _ _ _ _ hne
      · rw [if_neg hs]
        exact lookup_append_single_ne _ _ _ _ hne

/-- Witness for C9: a concrete transform of one id leaves the other id's cache
entry untouched and logs exactly one compile. -/
theorem cssTransform_cache_spec_witness :
    (cssTransformStep (fun _ => some ⟨[("k", "v")]⟩)
        ⟨[("/b.css", ⟨[]⟩)], []⟩ "/a.css").compileLog = [] ++ ["/a.css"] ∧
    (cssTransformStep (fun _ => some ⟨[("k", "v")]⟩)
        ⟨[("/b.css", ⟨[]⟩)], []⟩ "/a.css").moduleCache.lookup "/b.css" =
      (⟨[("/b.css", ⟨[]⟩)], []⟩ : DevSessionState).moduleCache.lookup "/b.css" :=
  cssTransform_cache_spec _ _ _ _ (by decide) (by decide) (by decide)

theorem foldl_unshift_filter {α : Type} (c : α → Bool) (l : List α) (acc : List α) :
    l.foldl (fun acc p => if c p then p :: acc else acc) acc = (l.filter c).reverse ++ acc := by
  induction l generalizing acc with
  | nil => simp
  | cons p t ih =>
    by_cases hc : c p
    · simp [hc, ih, List.filter_cons_of_pos]
    · simp [hc, ih, List.filter_cons_of_neg]

theorem foldr_prependMove (L : List (Nat × PNode)) (root : PRoot)
    (hnd : (L.map Prod.fst).Nodup) :
    L.foldr (fun p d => prependMove p d) root =
      L ++ root.filter (fun q => !((L.map Prod.fst).contains q.1)) := by
  induction L with
  | nil => simp
  | cons p t ih =>
    have hp : p.1 ∉ t.map Prod.fst := by
      simp only [List.map_cons, List.nodup_cons] at hnd
      exact hnd.1
    have hnd2 : (t.map Prod.fst).Nodup := by
      simp only [List.map_cons, List.nodup_cons] at hnd
      exact hnd.2
    rw [List.foldr_cons, ih hnd2]
    show p :: List.filter (fun q => decide (q.1 ≠ p.1))
        (t ++ root.filter (fun q => !((t.map Prod.fst).contains q.1))) = _
    rw [List.filter_append]
    have ht : t.filter (fun q => decide (q.1 ≠ p.1)) = t := by
      apply List.filter_eq_self.mpr
      intro q hq
      simp only [decide_eq_true_eq]
      intro he
      exact hp (by rw [← he]; exact List.mem_map_of_mem Prod.fst hq)
    rw [ht]
    rw [List.filter_filter]
    refine congrArg (fun x => p :: (t ++ x)) ?_
    apply List.filter_congr
    intro q hq
    by_cases hqp : q.1 = p.1
    · simp [hqp, List.contains_cons]
    · simp [hqp, List.contains_cons, Ne.symm hqp]

/-- Claim C5: hoisting produces a document in which every at-import rule
precedes every other rule, with the at-import rules in their original relative
order and the remaining rules in their original relative order (the
reverse-record-and-prepend algorithm). -/
theorem hoistAtImports_orders_imports_first (root : PRoot)
    (hnd : (root.map Prod.fst).Nodup) :
    hoistAtImportsModel root =
      root.filter (fun p => isImportRule p.2)
        ++ root.filter (fun p => !isImportRule p.2) := by
  unfold hoistAtImportsModel collectImportsRev
  rw [foldl_unshift_filter, List.append_nil, List.foldl_reverse]
  rw [foldr_prependMove _ _
    (List.Nodup.sublist (List.Sublist.map Prod.fst (List.filter_sublist root)) hnd)]
  refine congrArg (fun x => root.filter (fun p => isImportRule p.2) ++ x) ?_
  apply List.filter_congr
  intro q hq
  by_cases himp : isImportRule q.2 = true
  · have hqf : q ∈ root.filter (fun p => isImportRule p.2) :=
      List.mem_filter.mpr ⟨hq, himp⟩
    have hmem : q.1 ∈ (root.filter (fun p => isImportRule p.2)).map Prod.fst :=
      List.mem_map_of_mem Prod.fst hqf
    simp [himp, hmem]
  · have hnc : q.1 ∉ (root.filter (fun p => isImportRule p.2)).map Prod.fst := by
      intro hmem
      rcases List.mem_map.mp hmem with ⟨r, hrf, hre⟩
      rcases List.mem_filter.mp hrf with ⟨hr_root, hr_imp⟩
      have hrq : r = q := List.inj_on_of_nodup_map hnd hr_root hq hre
      rw [hrq] at hr_imp
      exact himp hr_imp
    simp [himp, hnc]


/-- Witness for C5: a four-rule document with interleaved imports. -/
theorem hoistAtImports_orders_imports_first_witness :
    hoistAtImportsModel
      [(0, ⟨false, "", "body"⟩), (1, ⟨true, "import", "a"⟩),
       (2, ⟨false, "", "p"⟩), (3, ⟨true, "import", "b"⟩)] =
      ([(0, ⟨false, "", "body"⟩), (1, ⟨true, "import", "a"⟩),
        (2, ⟨false, "", "p"⟩), (3, ⟨true, "import", "b"⟩)] : PRoot).filter
          (fun p => isImportRule p.2)
        ++ ([(0, ⟨false, "", "body"⟩), (1, ⟨true, "import", "a"⟩),
        (2, ⟨false, "", "p"⟩), (3, ⟨true, "import", "b"⟩)] : PRoot).filter
          (fun p => !isImportRule p.2) :=
  hoistAtImports_orders_imports_first _ (by decide)

theorem mem_addToSet {s : List String} {x y : String} :
    x ∈ addToSet s y ↔ x ∈ s ∨ x = y := by
  unfold addToSet
  by_cases hy : y ∈ s
  · rw [if_pos hy]
    constructor
    · exact Or.inl
    · rintro (h | h)
      · exact h
      · subst h
        exact hy
  · rw [if_neg hy]
    simp

theorem chunkScan_foldl_snd (styles : List (String × String)) (ids : List String)
    (acc : String × Bool) :
    (ids.foldl (fun acc id =>
      let pure := if !isCSSRequest id || cssModuleTest id || commonjsProxyTest id
        then false else acc.2
      let css := match styles.lookup id with
        | some s => acc.1 ++ s
        | none => acc.1
      (css, pure)) acc).2 =
    (acc.2 && ids.all (fun id =>
      isCSSRequest id && !cssModuleTest id && !commonjsProxyTest id)) := by
  induction ids generalizing acc with
  | nil => simp
  | cons i t ih =>
    simp only [List.foldl_cons, List.all_cons, ih]
    cases hc : isCSSRequest i <;> cases hm : cssModuleTest i <;>
      cases hp : commonjsProxyTest i <;>
        simp [hc, hm, hp, Bool.and_comm, Bool.and_left_comm, Bool.and_assoc]

theorem chunkScan_snd (styles : List (String × String)) (ids : List String) :
    (chunkScan styles ids).2 = ids.all (fun id =>
      isCSSRequest id && !cssModuleTest id && !commonjsProxyTest id) := by
  unfold chunkScan
  rw [chunkScan_foldl_snd]
  simp

/-- Counterexample for C3: a chunk whose only module is a CSS-modules
stylesheet (a stylesheet module by the claim's terms, with a recorded style)
is not added to the pure-chunk registry, because the loop also excludes
`.module.<lang>` and commonjs-proxy ids. -/
theorem pure_chunk_flag_module_counterexample :
    (["/a.module.css"].all (fun id => isCSSRequest id)) = true ∧
    "chunk.js" ∉ (renderChunkModel
      ⟨fun s => s, fun _ s => (s, []), fun s => s, fun n _ => n, fun s => s⟩
      ⟨true, false, false, false⟩ ⟨[("/a.module.css", "x")], [], [], false⟩
      ⟨"chunk.js", "chunk", ["/a.module.css"]⟩ true 0 "code").1.pureCssChunks := by
  constructor
  · decide
  · decide

/-- Claim C3 (amended): a chunk is added to the pure-chunk registry exactly
when css code-splitting is enabled, its accumulated css text is non-empty, and
every module id is a stylesheet request that is neither a CSS-modules id nor a
commonjs-proxy id. -/
theorem renderChunk_pure_registry_iff (env : PostEnv) (cfg : BuildConfig)
    (st : PostPluginState) (chunk : ChunkInfo) (isEsOrCjs : Bool) (optsKey : Nat)
    (code : String) (f : String) :
    f ∈ (renderChunkModel env cfg st chunk isEsOrCjs optsKey code).1.pureCssChunks ↔
      (f ∈ st.pureCssChunks ∨
        (cfg.cssCodeSplit = true ∧ (chunkScan st.styles chunk.moduleIds).1 ≠ "" ∧
         chunk.moduleIds.all (fun id =>
           isCSSRequest id && !cssModuleTest id && !commonjsProxyTest id) = true ∧
         f = chunk.fileName)) := by
  unfold renderChunkModel
  by_cases hempty : (chunkScan st.styles chunk.moduleIds).1 = ""
  · rw [if_pos hempty]
    simp [hempty]
  · rw [if_neg hempty]
    cases hsplit : cfg.cssCodeSplit with
    | false =>
      simp [hsplit, hempty]
    | true =>
      rw [if_pos rfl]
      rw [chunkScan_snd]
      cases hall : chunk.moduleIds.all (fun id =>
          isCSSRequest id && !cssModuleTest id && !commonjsProxyTest id) with
      | false =>
        simp only [if_false, Bool.false_eq_true]
        cases isEsOrCjs <;> by_cases hssr : cfg.ssr <;>
          simp [hssr, hempty, hall]
      | true =>
        simp only [if_true]
        cases isEsOrCjs <;> by_cases hssr : cfg.ssr <;>
          simp [hssr, hempty, hall, mem_addToSet, eq_comm]


theorem generateBundle_not_eligible (env : PostEnv) (cfg : BuildConfig)
    (st : PostPluginState) (isEs : Bool) (k : Nat) (skip : Bool) (b : Bundle)
    (h : emitEligible st (k, skip, b) = false) :
    (generateBundleModel env cfg st isEs k skip b).1 = st ∧
    (generateBundleModel env cfg st isEs k skip b).2.2 = [] := by
  unfold emitEligible at h
  unfold generateBundleModel
  cases hskip : skip with
  | true => simp
  | false =>
    rw [hskip] at h
    simp only [decide_True, Bool.true_and] at h
    simp only [Bool.false_eq_true, if_false]
    rw [if_neg]
    · exact ⟨rfl, rfl⟩
    · intro hcond
      rcases hcond with ⟨hne, _⟩
      simp [hne] at h

theorem generateBundle_emitted_blocked (env : PostEnv) (cfg : BuildConfig)
    (st : PostPluginState) (isEs : Bool) (k : Nat) (skip : Bool) (b : Bundle)
    (h : st.hasEmitted = true) :
    (generateBundleModel env cfg st isEs k skip b).1 = st ∧
    (generateBundleModel env cfg st isEs k skip b).2.2 = [] := by
  unfold generateBundleModel
  cases hskip : skip with
  | true => simp
  | false =>
    simp only [Bool.false_eq_true, if_false]
    rw [if_neg]
    · exact ⟨rfl, rfl⟩
    · intro hcond
      rw [h] at hcond
      exact absurd hcond.2 (by simp)

theorem generateBundle_eligible (env : PostEnv) (cfg : BuildConfig)
    (st : PostPluginState) (isEs : Bool) (k : Nat) (skip : Bool) (b : Bundle)
    (hs : st.hasEmitted = false) (h : emitEligible st (k, skip, b) = true) :
    (generateBundleModel env cfg st isEs k skip b).1 = { st with hasEmitted := true } ∧
    (generateBundleModel env cfg st isEs k skip b).2.2.length = 1 := by
  unfold emitEligible at h
  unfold generateBundleModel
  cases hskip : skip with
  | true => rw [hskip] at h; simp at h
  | false =>
    rw [hskip] at h
    simp only [decide_True, Bool.true_and, ne_eq, decide_not, Bool.not_eq_true',
      decide_eq_false_iff_not] at h
    simp only [Bool.false_eq_true, if_false]
    rw [if_pos ⟨by simpa using h, hs⟩]
    exact ⟨rfl, rfl⟩

theorem runGB_acc (env : PostEnv) (cfg : BuildConfig) (isEs : Bool)
    (calls : List (Nat × Bool × Bundle)) (st : PostPluginState)
    (acc : List (String × String)) :
    (calls.foldl (fun acc call =>
      let r := generateBundleModel env cfg acc.1 isEs call.1 call.2.1 call.2.2
      (r.1, acc.2 ++ r.2.2)) (st, acc)) =
    ((runGenerateBundles env cfg st isEs calls).1,
      acc ++ (runGenerateBundles env cfg st isEs calls).2) := by
  unfold runGenerateBundles
  induction calls generalizing st acc with
  | nil => simp
  | cons c t ih =>
    simp only [List.foldl_cons, List.nil_append]
    rw [ih]
    conv_rhs => rw [ih]
    simp

theorem runGB_cons (env : PostEnv) (cfg : BuildConfig) (isEs : Bool)
    (c : Nat × Bool × Bundle) (t : List (Nat × Bool × Bundle)) (st : PostPluginState) :
    runGenerateBundles env cfg st isEs (c :: t) =
      ((runGenerateBundles env cfg
          (generateBundleModel env cfg st isEs c.1 c.2.1 c.2.2).1 isEs t).1,
        (generateBundleModel env cfg st isEs c.1 c.2.1 c.2.2).2.2 ++
          (runGenerateBundles env cfg
            (generateBundleModel env cfg st isEs c.1 c.2.1 c.2.2).1 isEs t).2) := by
  show (List.foldl _ _ (c :: t)) = _
  rw [List.foldl_cons]
  simpa using runGB_acc env cfg isEs t _ _

theorem runGB_after_emitted (env : PostEnv) (cfg : BuildConfig) (isEs : Bool)
    (calls : List (Nat × Bool × Bundle)) (st2 : PostPluginState)
    (h2 : st2.hasEmitted = true) :
    (runGenerateBundles env cfg st2 isEs calls).2 = [] := by
  induction calls generalizing st2 with
  | nil => rfl
  | cons c t ih =>
    have hb := generateBundle_emitted_blocked env cfg st2 isEs c.1 c.2.1 c.2.2 h2
    rw [runGB_cons, hb.1, hb.2]
    simp only [List.nil_append]
    exact ih st2 h2

theorem extractedCss_emitted_once_core (env : PostEnv) (cfg : BuildConfig)
    (st : PostPluginState) (isEs : Bool) (calls : List (Nat × Bool × Bundle))
    (hstart : st.hasEmitted = false) :
    (runGenerateBundles env cfg st isEs calls).2.length =
      (if calls.any (fun c => emitEligible st c) then 1 else 0) := by
  induction calls generalizing st with
  | nil => simp [runGenerateBundles]
  | cons c t ih =>
    cases hel : emitEligible st (c.1, c.2.1, c.2.2) with
    | false =>
      have hne := generateBundle_not_eligible env cfg st isEs c.1 c.2.1 c.2.2 hel
      have hel2 : emitEligible st c = false := by
        rcases c with ⟨k, skip, b⟩
        exact hel
      rw [runGB_cons, hne.1, hne.2]
      simp only [List.nil_append, List.any_cons, hel2, Bool.false_or]
      exact ih st hstart
    | true =>
      have hem := generateBundle_eligible env cfg st isEs c.1 c.2.1 c.2.2 hstart hel
      have hel2 : emitEligible st c = true := by
        rcases c with ⟨k, skip, b⟩
        exact hel
      rw [runGB_cons, hem.1]
      rw [runGB_after_emitted env cfg isEs t { st with hasEmitted := true } rfl]
      simp only [List.append_nil, List.any_cons, hel2, Bool.true_or, if_true]
      exact hem.2

/-- Counterexample for C2: two distinct output targets in one session, each
with a non-empty aggregated buffer; only the first finalize pass emits, and
the second target's buffer is skipped even though it was never emitted. -/
theorem extractedCss_second_target_skipped :
    (runGenerateBundles
      ⟨fun s => s, fun _ s => (s, []), fun s => s, fun n _ => n, fun s => s⟩
      ⟨true, false, false, false⟩ ⟨[], [], [(1, "a"), (2, "b")], false⟩ true
      [(1, false, []), (2, false, [])]).2 = [("style.css", "a")] ∧
    (([(1, "a"), (2, "b")] : List (Nat × String)).lookup 2).getD "" = "b" ∧
    ("style.css", "b") ∉ (runGenerateBundles
      ⟨fun s => s, fun _ s => (s, []), fun s => s, fun n _ => n, fun s => s⟩
      ⟨true, false, false, false⟩ ⟨[], [], [(1, "a"), (2, "b")], false⟩ true
      [(1, false, []), (2, false, [])]).2 := by
  refine ⟨by decide, by decide, by decide⟩

/-- Claim C2 (amended): within one build session the aggregated css is emitted
at most once in total: the first finalize invocation that is not skipped and
whose output target holds a non-empty buffer emits it, and every later
invocation of the session, for any output target, emits nothing. -/
theorem extractedCss_emitted_once_per_session (env : PostEnv) (cfg : BuildConfig)
    (st : PostPluginState) (isEs : Bool) (calls : List (Nat × Bool × Bundle))
    (hstart : st.hasEmitted = false) :
    (runGenerateBundles env cfg st isEs calls).2.length ≤ 1 ∧
    (runGenerateBundles env cfg st isEs calls).2.length =
      (if calls.any (fun c => emitEligible st c) then 1 else 0) := by
  have h := extractedCss_emitted_once_core env cfg st isEs calls hstart
  refine ⟨?_, h⟩
  rw [h]
  split <;> omega

/-- Witness for C2: one build with two output formats of the same target
content emits style.css exactly once. -/
theorem extractedCss_emitted_once_per_session_witness :
    (runGenerateBundles
      ⟨fun s => s, fun _ s => (s, []), fun s => s, fun n _ => n, fun s => s⟩
      ⟨true, false, false, false⟩ ⟨[], [], [(1, "a"), (2, "a")], false⟩ true
      [(1, false, []), (2, false, [])]).2.length ≤ 1 ∧
    (runGenerateBundles
      ⟨fun s => s, fun _ s => (s, []), fun s => s, fun n _ => n, fun s => s⟩
      ⟨true, false, false, false⟩ ⟨[], [], [(1, "a"), (2, "a")], false⟩ true
      [(1, false, []), (2, false, [])]).2.length =
      (if ([(1, false, []), (2, false, [])] : List (Nat × Bool × Bundle)).any
        (fun c => emitEligible ⟨[], [], [(1, "a"), (2, "a")], false⟩ c) then 1 else 0) :=
  extractedCss_emitted_once_per_session _ _ _ _ _ rfl

theorem emptyCssReplacement_length (m : Nat) (h : 15 ≤ m) :
    (emptyCssReplacement m).length = m := by
  unfold emptyCssReplacement
  rw [String.length_append, String.length_append]
  have h2 : (String.mk (List.replicate (m - 15) ' ')).length = m - 15 := by
    show (List.replicate (m - 15) ' ').length = m - 15
    exact List.length_replicate _ _
  rw [h2]
  have h3 : ("/* empty css " : String).length = 13 := by decide
  have h4 : ("*/" : String).length = 2 := by decide
  rw [h3, h4]
  omega

theorem keys_updateBundleAt (b : Bundle) (f : String) (e : BundleEntry) :
    (updateBundleAt b f e).map Prod.fst = b.map Prod.fst := by
  unfold updateBundleAt
  rw [List.map_map]
  apply List.map_congr_left
  intro p _
  by_cases hp : p.1 = f
  · simp [hp]
  · simp [hp]

theorem lookup_updateBundleAt_ne (b : Bundle) (f g : String) (e : BundleEntry)
    (hne : g ≠ f) : (updateBundleAt b f e).lookup g = b.lookup g := by
  unfold updateBundleAt
  induction b with
  | nil => rfl
  | cons p t ih =>
    rw [List.map_cons]
    by_cases hp : p.1 = f
    · rw [if_pos hp]
      have h2 : (g == p.1) = false := beq_eq_false_iff_ne.mpr (by rw [hp]; exact hne)
      simp only [List.lookup, h2]
      exact ih
    · rw [if_neg hp]
      simp only [List.lookup]
      cases hbeq : g == p.1
      · exact ih
      · rfl

theorem lookup_updateBundleAt_self (b : Bundle) (f : String) (e y : BundleEntry)
    (hy : b.lookup f = some y) : (updateBundleAt b f e).lookup f = some e := by
  unfold updateBundleAt
  induction b with
  | nil => simp [List.lookup] at hy
  | cons p t ih =>
    rw [List.map_cons]
    simp only [List.lookup] at hy
    by_cases hp : p.1 = f
    · rw [if_pos hp]
      have h2 : (f == p.1) = true := by
        rw [hp]
        exact beq_self_eq_true f
      simp only [List.lookup, h2]
    · rw [if_neg hp]
      have h2 : (f == p.1) = false := beq_eq_false_iff_ne.mpr (fun h => hp h.symm)
      rw [h2] at hy
      simp only [List.lookup, h2]
      exact ih hy

theorem mem_foldl_addToSet_left {l acc : List String} {x : String} (hx : x ∈ acc) :
    x ∈ l.foldl addToSet acc := by
  induction l generalizing acc with
  | nil => exact hx
  | cons d t ih =>
    simp only [List.foldl_cons]
    exact ih (mem_addToSet.mpr (Or.inl hx))

theorem mem_foldl_addToSet_right {l acc : List String} {x : String} (hx : x ∈ l) :
    x ∈ l.foldl addToSet acc := by
  induction l generalizing acc with
  | nil => exact absurd hx (List.not_mem_nil x)
  | cons d t ih =>
    simp only [List.foldl_cons]
    rcases List.mem_cons.mp hx with h | h
    · subst h
      exact mem_foldl_addToSet_left (mem_addToSet.mpr (Or.inr rfl))
    · exact ih h

theorem mergeFold_snd_mono (b : Bundle) (pure : List String) (l : List String)
    (acc : List String × List String) {x : String} (hx : x ∈ acc.2) :
    x ∈ (l.foldl (fun (acc : List String × List String) f =>
      if f ∈ pure then
        match b.lookup f with
        | some (BundleEntry.chunk pc) => (acc.1, pc.importedCss.foldl addToSet acc.2)
        | _ => (acc.1, acc.2)
      else (acc.1 ++ [f], acc.2)) acc).2 := by
  induction l generalizing acc with
  | nil => exact hx
  | cons f t ih =>
    simp only [List.foldl_cons]
    by_cases hf : f ∈ pure
    · rw [if_pos hf]
      cases hl : b.lookup f with
      | none => exact ih _ hx
      | some e =>
        cases e with
        | chunk pc => exact ih _ (mem_foldl_addToSet_left hx)
        | asset s => exact ih _ hx
    · rw [if_neg hf]
      exact ih _ hx

theorem mergeFold_snd_hits (b : Bundle) (pure : List String) (l : List String)
    (acc : List String × List String) (p : String) (hp : p ∈ l) (hpure : p ∈ pure)
    (pc : OutChunk) (hlook : b.lookup p = some (BundleEntry.chunk pc))
    {x : String} (hx : x ∈ pc.importedCss) :
    x ∈ (l.foldl (fun (acc : List String × List String) f =>
      if f ∈ pure then
        match b.lookup f with
        | some (BundleEntry.chunk pc) => (acc.1, pc.importedCss.foldl addToSet acc.2)
        | _ => (acc.1, acc.2)
      else (acc.1 ++ [f], acc.2)) acc).2 := by
  induction l generalizing acc with
  | nil => exact absurd hp (List.not_mem_nil p)
  | cons f t ih =>
    simp only [List.foldl_cons]
    rcases List.mem_cons.mp hp with h | h
    · subst h
      rw [if_pos hpure, hlook]
      exact mergeFold_snd_mono b pure t _ (mem_foldl_addToSet_right hx)
    · by_cases hf : f ∈ pure
      · rw [if_pos hf]
        cases hl : b.lookup f with
        | none => exact ih _ h
        | some e =>
          cases e with
          | chunk pc2 => exact ih _ h
          | asset s => exact ih _ h
      · rw [if_neg hf]
        exact ih _ h

theorem mergeFold_fst (b : Bundle) (pure : List String) (l : List String)
    (acc : List String × List String) :
    (l.foldl (fun (acc : List String × List String) f =>
      if f ∈ pure then
        match b.lookup f with
        | some (BundleEntry.chunk pc) => (acc.1, pc.importedCss.foldl addToSet acc.2)
        | _ => (acc.1, acc.2)
      else (acc.1 ++ [f], acc.2)) acc).1 =
    acc.1 ++ l.filter (fun g => !pure.contains g) := by
  induction l generalizing acc with
  | nil => simp
  | cons f t ih =>
    simp only [List.foldl_cons]
    by_cases hf : f ∈ pure
    · have hc : pure.contains f = true := List.elem_eq_true_of_mem hf
      rw [if_pos hf]
      cases hl : b.lookup f with
      | none =>
        rw [ih]
        simp [List.filter_cons, hc, hf]
      | some e =>
        cases e with
        | chunk pc =>
          rw [ih]
          simp [List.filter_cons, hc, hf]
        | asset s =>
          rw [ih]
          simp [List.filter_cons, hc, hf]
    · have hc : pure.contains f = false := by
        cases hcc : pure.contains f
        · rfl
        · exact absurd (List.mem_of_elem_eq_true hcc) hf
      rw [if_neg hf, ih]
      simp [List.filter_cons, hc, hf]

theorem mergePureImports_chunkImports (b : Bundle) (pure : List String) (c : OutChunk) :
    (mergePureImports b pure c).chunkImports =
      c.chunkImports.filter (fun g => !pure.contains g) := by
  show (List.foldl _ ([], c.importedCss) c.chunkImports).1 = _
  rw [mergeFold_fst]
  simp

theorem mergePureImports_mem_orig (b : Bundle) (pure : List String) (c : OutChunk)
    {x : String} (hx : x ∈ c.importedCss) :
    x ∈ (mergePureImports b pure c).importedCss := by
  unfold mergePureImports
  exact mergeFold_snd_mono b pure c.chunkImports ([], c.importedCss) hx

theorem mergePureImports_mem_merged (b : Bundle) (pure : List String) (c : OutChunk)
    (p : String) (hp : p ∈ c.chunkImports) (hpure : p ∈ pure) (pc : OutChunk)
    (hlook : b.lookup p = some (BundleEntry.chunk pc)) {x : String}
    (hx : x ∈ pc.importedCss) :
    x ∈ (mergePureImports b pure c).importedCss := by
  unfold mergePureImports
  exact mergeFold_snd_hits b pure c.chunkImports ([], c.importedCss) p hp hpure pc hlook hx

theorem mergePureImports_code (b : Bundle) (pure : List String) (c : OutChunk) :
    (mergePureImports b pure c).code = c.code := rfl

theorem processBundleChunk_fields (isEs : Bool) (names pure : List String)
    (b : Bundle) (c : OutChunk) :
    (processBundleChunk isEs names pure b c).importedCss =
        (mergePureImports b pure c).importedCss ∧
    (processBundleChunk isEs names pure b c).chunkImports =
        (mergePureImports b pure c).chunkImports ∧
    (processBundleChunk isEs names pure b c).code =
        emptyChunkReplace isEs names c.code := by
  refine ⟨rfl, rfl, ?_⟩
  show emptyChunkReplace isEs names (mergePureImports b pure c).code = _
  rw [mergePureImports_code]

theorem pruneStep_keys (isEs : Bool) (names pure : List String) (b : Bundle)
    (f : String) :
    (pruneStep isEs names pure b f).map Prod.fst = b.map Prod.fst := by
  unfold pruneStep
  cases hl : b.lookup f with
  | none => rfl
  | some e =>
    cases e with
    | chunk c => exact keys_updateBundleAt b f _
    | asset s => rfl

theorem pruneStep_lookup_ne (isEs : Bool) (names pure : List String) (b : Bundle)
    (f g : String) (hne : g ≠ f) :
    (pruneStep isEs names pure b f).lookup g = b.lookup g := by
  unfold pruneStep
  cases hl : b.lookup f with
  | none => rfl
  | some e =>
    cases e with
    | chunk c => exact lookup_updateBundleAt_ne b f g _ hne
    | asset s => rfl

theorem pruneFold_lookup_untouched (isEs : Bool) (names pure : List String)
    (K : List String) (b : Bundle) (f : String) (hf : f ∉ K) :
    (K.foldl (pruneStep isEs names pure) b).lookup f = b.lookup f := by
  induction K generalizing b with
  | nil => rfl
  | cons g t ih =>
    have hfg : f ≠ g := fun h => hf (h ▸ List.mem_cons_self g t)
    have hft : f ∉ t := fun h => hf (List.mem_cons_of_mem g h)
    simp only [List.foldl_cons]
    rw [ih _ hft]
    exact pruneStep_lookup_ne isEs names pure b g f hfg

theorem pruneStep_eq_none (isEs : Bool) (names pure : List String) (b : Bundle)
    (f : String) (hl : b.lookup f = none) : pruneStep isEs names pure b f = b := by
  unfold pruneStep
  rw [hl]

theorem pruneStep_eq_asset (isEs : Bool) (names pure : List String) (b : Bundle)
    (f s : String) (hl : b.lookup f = some (BundleEntry.asset s)) :
    pruneStep isEs names pure b f = b := by
  unfold pruneStep
  rw [hl]

theorem pruneStep_eq_chunk (isEs : Bool) (names pure : List String) (b : Bundle)
    (f : String) (c : OutChunk) (hl : b.lookup f = some (BundleEntry.chunk c)) :
    pruneStep isEs names pure b f =
      updateBundleAt b f (BundleEntry.chunk (processBundleChunk isEs names pure b c)) := by
  unfold pruneStep
  rw [hl]

theorem pruneStep_inv (isEs : Bool) (names pure : List String) (bundle b : Bundle)
    (f : String)
    (hinv : ∀ g c0, bundle.lookup g = some (BundleEntry.chunk c0) → ∃ c1,
      b.lookup g = some (BundleEntry.chunk c1) ∧
        ∀ x ∈ c0.importedCss, x ∈ c1.importedCss) :
    ∀ g c0, bundle.lookup g = some (BundleEntry.chunk c0) → ∃ c1,
      (pruneStep isEs names pure b f).lookup g = some (BundleEntry.chunk c1) ∧
        ∀ x ∈ c0.importedCss, x ∈ c1.importedCss := by
  intro g c0 hg
  rcases hinv g c0 hg with ⟨c1, hb, hsub⟩
  cases hl : b.lookup f with
  | none =>
    rw [pruneStep_eq_none isEs names pure b f hl]
    exact ⟨c1, hb, hsub⟩
  | some e =>
    cases e with
    | asset s =>
      rw [pruneStep_eq_asset isEs names pure b f s hl]
      exact ⟨c1, hb, hsub⟩
    | chunk c =>
      rw [pruneStep_eq_chunk isEs names pure b f c hl]
      by_cases hgf : g = f
      · subst hgf
        have hc : c1 = c := by
          rw [hb] at hl
          exact BundleEntry.chunk.inj (Option.some.inj hl)
        refine ⟨processBundleChunk isEs names pure b c, ?_, ?_⟩
        · exact lookup_updateBundleAt_self b g _ (BundleEntry.chunk c) (by rw [hb, hc])
        · intro x hx
          rw [(processBundleChunk_fields isEs names pure b c).1]
          exact mergePureImports_mem_orig b pure c (hc ▸ hsub x hx)
      · refine ⟨c1, ?_, hsub⟩
        rw [lookup_updateBundleAt_ne b f g _ hgf]
        exact hb

theorem pruneFold_inv (isEs : Bool) (names pure : List String) (bundle : Bundle)
    (K : List String) (b : Bundle)
    (hinv : ∀ g c0, bundle.lookup g = some (BundleEntry.chunk c0) → ∃ c1,
      b.lookup g = some (BundleEntry.chunk c1) ∧
        ∀ x ∈ c0.importedCss, x ∈ c1.importedCss) :
    ∀ g c0, bundle.lookup g = some (BundleEntry.chunk c0) → ∃ c1,
      (K.foldl (pruneStep isEs names pure) b).lookup g = some (BundleEntry.chunk c1) ∧
        ∀ x ∈ c0.importedCss, x ∈ c1.importedCss := by
  induction K generalizing b with
  | nil => exact hinv
  | cons f t ih =>
    simp only [List.foldl_cons]
    exact ih _ (pruneStep_inv isEs names pure bundle b f hinv)

theorem pruneFold_keys (isEs : Bool) (names pure : List String) (K : List String)
    (b : Bundle) :
    (K.foldl (pruneStep isEs names pure) b).map Prod.fst = b.map Prod.fst := by
  induction K generalizing b with
  | nil => rfl
  | cons f t ih =>
    simp only [List.foldl_cons]
    rw [ih, pruneStep_keys]

theorem mem_keys_of_lookup {b : Bundle} {g : String} {e : BundleEntry}
    (h : b.lookup g = some e) : g ∈ b.map Prod.fst := by
  induction b with
  | nil => simp [List.lookup] at h
  | cons p t ih =>
    simp only [List.lookup] at h
    cases hbeq : g == p.1
    · rw [hbeq] at h
      exact List.mem_cons_of_mem _ (ih h)
    · have hg : g = p.1 := eq_of_beq hbeq
      rw [List.map_cons, hg]
      exact List.mem_cons_self _ _

theorem lookup_eq_none_of_not_mem_keys {b : Bundle} {g : String}
    (h : g ∉ b.map Prod.fst) : b.lookup g = none := by
  cases hl : b.lookup g with
  | none => rfl
  | some e => exact absurd (mem_keys_of_lookup hl) h

theorem lookup_filter_pure (b : Bundle) (pure : List String) (p : String)
    (hp : p ∈ pure) : (b.filter (fun q => !pure.contains q.1)).lookup p = none := by
  induction b with
  | nil => rfl
  | cons q t ih =>
    rw [List.filter_cons]
    cases hc : (!pure.contains q.1) with
    | false =>
      rw [if_neg (by decide)]
      exact ih
    | true =>
      rw [if_pos rfl]
      have hq : q.1 ∉ pure := by
        intro hqm
        have hc2 : pure.contains q.1 = true := List.elem_eq_true_of_mem hqm
        rw [hc2] at hc
        simp at hc
      have hne : (p == q.1) = false :=
        beq_eq_false_iff_ne.mpr (fun h => hq (h ▸ hp))
      simp only [List.lookup, hne]
      exact ih

theorem lookup_filter_notpure (b : Bundle) (pure : List String) (f : String)
    (hf : f ∉ pure) :
    (b.filter (fun q => !pure.contains q.1)).lookup f = b.lookup f := by
  induction b with
  | nil => rfl
  | cons q t ih =>
    rw [List.filter_cons]
    by_cases hq : q.1 ∈ pure
    · have hpred : (!pure.contains q.1) = false := by
        have hc2 : pure.contains q.1 = true := List.elem_eq_true_of_mem hq
        rw [hc2]
        rfl
      rw [if_neg (by rw [hpred]; decide)]
      have hne : (f == q.1) = false :=
        beq_eq_false_iff_ne.mpr (fun h => hf (h ▸ hq))
      rw [ih]
      simp only [List.lookup, hne]
    · have hpred : (!pure.contains q.1) = true := by
        have hcc : pure.contains q.1 = false := by
          cases hc2 : pure.contains q.1
          · rfl
          · exact absurd (List.mem_of_elem_eq_true hc2) hq
        rw [hcc]
        rfl
      rw [if_pos hpred]
      simp only [List.lookup]
      cases hbeq : f == q.1
      · exact ih
      · rfl

theorem matchQuotedName_nil (l : List Char) : matchQuotedName [] l = none := by
  cases l with
  | nil => rfl
  | cons c rest =>
    simp only [matchQuotedName, List.any_nil, Bool.and_false, Bool.false_eq_true,
      if_false]
    split
    · split
      · simp
      · rfl
    · rfl

theorem matchEmptyImportAt_nil (prev : Option Char) (l : List Char) :
    matchEmptyImportAt [] prev l = none := by
  unfold matchEmptyImportAt
  simp only [matchQuotedName_nil]
  split
  · rfl
  · split
    · rfl
    · rfl

theorem matchEmptyRequireAt_nil (prev : Option Char) (l : List Char) :
    matchEmptyRequireAt [] prev l = none := by
  unfold matchEmptyRequireAt
  simp only [matchQuotedName_nil]
  split
  · rfl
  · split
    · rfl
    · rfl

theorem emptyChunkReplaceAux_nil_names (isEs : Bool) (fuel : Nat)
    (prev : Option Char) (l : List Char) :
    emptyChunkReplaceAux isEs [] fuel prev l = l := by
  induction fuel generalizing prev l with
  | zero => rfl
  | succ n ih =>
    cases l with
    | nil => rfl
    | cons c rest =>
      cases isEs with
      | true =>
        simp [emptyChunkReplaceAux, matchEmptyImportAt_nil, matchEmptyRequireAt_nil, ih]
      | false =>
        simp [emptyChunkReplaceAux, matchEmptyImportAt_nil, matchEmptyRequireAt_nil, ih]

theorem emptyChunkReplace_nil_names (isEs : Bool) (code : String) :
    emptyChunkReplace isEs [] code = code := by
  unfold emptyChunkReplace
  rw [emptyChunkReplaceAux_nil_names]

theorem pruneFold_lookup_chunk (isEs : Bool) (names pure : List String)
    (bundle : Bundle) (hnd : (bundle.map Prod.fst).Nodup) (f : String)
    (c0 : OutChunk) (hf : bundle.lookup f = some (BundleEntry.chunk c0)) :
    ∃ bf : Bundle,
      ((bundle.map Prod.fst).foldl (pruneStep isEs names pure) bundle).lookup f =
        some (BundleEntry.chunk (processBundleChunk isEs names pure bf c0)) ∧
      (∀ g c1, bundle.lookup g = some (BundleEntry.chunk c1) → ∃ c2,
        bf.lookup g = some (BundleEntry.chunk c2) ∧
          ∀ x ∈ c1.importedCss, x ∈ c2.importedCss) := by
  have hmem : f ∈ bundle.map Prod.fst := mem_keys_of_lookup hf
  rcases List.append_of_mem hmem with ⟨s, t, hst⟩
  have hnd2 := hst ▸ hnd
  have hfs : f ∉ s := by
    intro hmem2
    have := List.disjoint_of_nodup_append hnd2
    exact this hmem2 (List.mem_cons_self f t)
  have hft : f ∉ t := by
    have := (List.nodup_append.mp hnd2).2.1
    exact (List.nodup_cons.mp this).1
  refine ⟨s.foldl (pruneStep isEs names pure) bundle, ?_, ?_⟩
  · rw [hst, List.foldl_append, List.foldl_cons]
    have hbf : (s.foldl (pruneStep isEs names pure) bundle).lookup f =
        some (BundleEntry.chunk c0) := by
      rw [pruneFold_lookup_untouched isEs names pure s bundle f hfs]
      exact hf
    rw [pruneFold_lookup_untouched isEs names pure t _ f hft]
    rw [pruneStep_eq_chunk isEs names pure _ f c0 hbf]
    exact lookup_updateBundleAt_self _ f _ (BundleEntry.chunk c0) hbf
  · exact pruneFold_inv isEs names pure bundle s bundle
      (fun g c1 hg => ⟨c1, hg, fun x hx => hx⟩)

theorem pruneFold_lookup_asset (isEs : Bool) (names pure : List String)
    (bundle : Bundle) (hnd : (bundle.map Prod.fst).Nodup) (f s0 : String)
    (hf : bundle.lookup f = some (BundleEntry.asset s0)) :
    ((bundle.map Prod.fst).foldl (pruneStep isEs names pure) bundle).lookup f =
      some (BundleEntry.asset s0) := by
  have hmem : f ∈ bundle.map Prod.fst := mem_keys_of_lookup hf
  rcases List.append_of_mem hmem with ⟨s, t, hst⟩
  have hnd2 := hst ▸ hnd
  have hfs : f ∉ s := by
    intro hmem2
    have := List.disjoint_of_nodup_append hnd2
    exact this hmem2 (List.mem_cons_self f t)
  have hft : f ∉ t := by
    have := (List.nodup_append.mp hnd2).2.1
    exact (List.nodup_cons.mp this).1
  rw [hst, List.foldl_append, List.foldl_cons]
  have hbf : (s.foldl (pruneStep isEs names pure) bundle).lookup f =
      some (BundleEntry.asset s0) := by
    rw [pruneFold_lookup_untouched isEs names pure s bundle f hfs]
    exact hf
  rw [pruneFold_lookup_untouched isEs names pure t _ f hft]
  rw [pruneStep_eq_asset isEs names pure _ f s0 hbf]
  exact hbf

theorem not_mem_keys_of_lookup_none {b : Bundle} {f : String}
    (h : b.lookup f = none) : f ∉ b.map Prod.fst := by
  intro hmem
  induction b with
  | nil => simp at hmem
  | cons p t ih =>
    simp only [List.lookup] at h
    cases hbeq : f == p.1
    · rw [hbeq] at h
      rcases List.mem_cons.mp hmem with h2 | h2
      · exact absurd (beq_eq_false_iff_ne.mp hbeq) (by simpa using h2)
      · exact ih h h2
    · rw [hbeq] at h
      cases h

theorem generateBundlePrune_eq (isEs : Bool) (pure : List String) (bundle : Bundle)
    (hne : pure ≠ []) :
    (generateBundlePrune isEs pure bundle).1 =
      ((bundle.map Prod.fst).foldl
        (pruneStep isEs (pure.map basename) pure) bundle).filter
          (fun p => !pure.contains p.1) := by
  unfold generateBundlePrune
  rw [if_neg (fun h => hne (by simpa using h))]

/-- Claim C4 (amended): after the finalize pass every pure-css chunk is absent
from the bundle; every surviving chunk has the removed chunks filtered out of
its imports, the removed chunks' emitted css-asset names merged into the
chunk's importedCss set, and its code rewritten by the empty-chunk comment
substitution, whose placeholder has the same character length as the matched
text whenever that length is at least 15 (shorter matches are padded to the
15-character minimum). -/
theorem generateBundle_prune_spec (isEs : Bool) (pure : List String) (bundle : Bundle)
    (hnd : (bundle.map Prod.fst).Nodup)
    (hpure : ∀ p ∈ pure, ∃ c : OutChunk,
      bundle.lookup p = some (BundleEntry.chunk c)) :
    (∀ p ∈ pure, (generateBundlePrune isEs pure bundle).1.lookup p = none) ∧
    (∀ f c', (generateBundlePrune isEs pure bundle).1.lookup f =
        some (BundleEntry.chunk c') →
      ∃ c, bundle.lookup f = some (BundleEntry.chunk c) ∧
        c'.chunkImports = c.chunkImports.filter (fun g => !pure.contains g) ∧
        (∀ p, p ∈ c.chunkImports → p ∈ pure →
          ∀ pc, bundle.lookup p = some (BundleEntry.chunk pc) →
            ∀ x ∈ pc.importedCss, x ∈ c'.importedCss) ∧
        c'.code = emptyChunkReplace isEs (pure.map basename) c.code) ∧
    (∀ m, 15 ≤ m → (emptyCssReplacement m).length = m) := by
  by_cases hemp : pure = []
  · subst hemp
    refine ⟨fun p hp => absurd hp (List.not_mem_nil p), ?_,
      fun m hm => emptyCssReplacement_length m hm⟩
    intro f c' hf
    have hout : (generateBundlePrune isEs [] bundle).1 = bundle := by
      unfold generateBundlePrune
      rw [if_pos (show ([] : List String).isEmpty = true from rfl)]
    rw [hout] at hf
    refine ⟨c', hf, ?_, ?_, ?_⟩
    · exact (List.filter_eq_self.mpr (fun g _ => rfl)).symm
    · intro p _ hp2
      exact absurd hp2 (List.not_mem_nil p)
    · rw [show ([] : List String).map basename = [] from rfl,
        emptyChunkReplace_nil_names]
  · have hq := generateBundlePrune_eq isEs pure bundle hemp
    refine ⟨?_, ?_, fun m hm => emptyCssReplacement_length m hm⟩
    · intro p hp
      rw [hq]
      exact lookup_filter_pure _ pure p hp
    · intro f c' hf
      rw [hq] at hf
      by_cases hfp : f ∈ pure
      · rw [lookup_filter_pure _ pure f hfp] at hf
        cases hf
      · rw [lookup_filter_notpure _ pure f hfp] at hf
        cases hl : bundle.lookup f with
        | none =>
          rw [pruneFold_lookup_untouched isEs (pure.map basename) pure _ bundle f
            (not_mem_keys_of_lookup_none hl), hl] at hf
          cases hf
        | some e =>
          cases e with
          | asset s0 =>
            rw [pruneFold_lookup_asset isEs (pure.map basename) pure bundle hnd f s0 hl]
              at hf
            cases hf
          | chunk c0 =>
            rcases pruneFold_lookup_chunk isEs (pure.map basename) pure bundle hnd f c0 hl
              with ⟨bf, hlook, hinv⟩
            rw [hlook] at hf
            have hc' : c' = processBundleChunk isEs (pure.map basename) pure bf c0 :=
              (BundleEntry.chunk.inj (Option.some.inj hf)).symm
            subst hc'
            refine ⟨c0, rfl, ?_, ?_, ?_⟩
            · rw [(processBundleChunk_fields isEs (pure.map basename) pure bf c0).2.1,
                mergePureImports_chunkImports]
            · intro p hp hpure2 pc hpc x hx
              rcases hinv p pc hpc with ⟨pc2, hbfp, hsub⟩
              rw [(processBundleChunk_fields isEs (pure.map basename) pure bf c0).1]
              exact mergePureImports_mem_merged bf pure c0 p hp hpure2 pc2 hbfp (hsub x hx)
            · exact (processBundleChunk_fields isEs (pure.map basename) pure bf c0).2.2

/-- Counterexample for C4: an importer whose matched import statement is 13
characters long gets the 15-character placeholder, so the replacement is not
of the same character length as the matched text. -/
theorem prune_placeholder_length_counterexample :
    ((generateBundlePrune true ["a.js"]
        [("a.js", BundleEntry.chunk ⟨"", [], ["a.css"]⟩),
         ("b.js", BundleEntry.chunk ⟨"import\x22a.js\x22;", ["a.js"], []⟩)]).1.lookup
        "b.js" =
      some (BundleEntry.chunk ⟨"/* empty css */", [], ["a.css"]⟩)) ∧
    ("/* empty css */" : String).length ≠ ("import\x22a.js\x22;" : String).length := by
  refine ⟨by decide, by decide⟩

/-- Witness for C4: the concrete two-chunk bundle; the pure chunk is gone from
the output. -/
theorem generateBundle_prune_spec_witness :
    (generateBundlePrune true ["a.js"]
      [("a.js", BundleEntry.chunk ⟨"", [], ["a.css"]⟩),
       ("b.js", BundleEntry.chunk ⟨"import\x22a.js\x22;", ["a.js"], []⟩)]).1.lookup
      "a.js" = none :=
  (generateBundle_prune_spec true ["a.js"]
    [("a.js", BundleEntry.chunk ⟨"", [], ["a.css"]⟩),
     ("b.js", BundleEntry.chunk ⟨"import\x22a.js\x22;", ["a.js"], []⟩)]
    (by decide)
    (by
      intro p hp
      rw [List.mem_singleton.mp hp]
      exact ⟨⟨"", [], ["a.css"]⟩, rfl⟩)).1 "a.js" (List.mem_singleton.mpr rfl)


end ViteCss
